import Mathlib

set_option maxHeartbeats 1000000
set_option maxRecDepth 8000

/-!
Verification development for the MongoDB adapter (`pydal/adapters/mongo.py`):
a shallow embedding of the adapter's value coercion, identifier codec,
blob codec, expression compiler and query executor, together with theorems
settling the specification's claims about them.
-/

namespace PydalMongo

/-- Model of the Python values flowing through `MongoDBAdapter`: filter
documents and literals.  Documents are association lists with string keys,
mirroring Python dicts (in insertion order); `oid` models a bson `ObjectId`
holding its 24-character hex text; `vbin` models a bson `Binary` with its
subtype tag. -/
inductive MVal where
  | vnull
  | vbool (b : Bool)
  | vint (n : Int)
  | vstr (s : String)
  | varr (xs : List MVal)
  | vdoc (kvs : List (String × MVal))
  | oid (hex : String)
  | vbin (subtype : Nat) (data : List Nat)
  | vdate (y m d : Int)
  | vtime (h mi s : Int)
  | vdatetime (y m d h mi s : Int)
  deriving Inhabited

mutual

/-- Structural equality of modelled Python values (`==` on dicts, lists and
scalars). -/
def MVal.beq : MVal → MVal → Bool
  | .vnull, .vnull => true
  | .vbool a, .vbool b => a == b
  | .vint a, .vint b => a == b
  | .vstr a, .vstr b => a == b
  | .varr xs, .varr ys => MVal.beqArr xs ys
  | .vdoc xs, .vdoc ys => MVal.beqDoc xs ys
  | .oid a, .oid b => a == b
  | .vbin s a, .vbin t b => s == t && a == b
  | .vdate a b c, .vdate d e f => a == d && b == e && c == f
  | .vtime a b c, .vtime d e f => a == d && b == e && c == f
  | .vdatetime a b c x y z, .vdatetime d e f u v w =>
    a == d && b == e && c == f && x == u && y == v && z == w
  | _, _ => false

/-- Elementwise equality of value lists. -/
def MVal.beqArr : List MVal → List MVal → Bool
  | [], [] => true
  | x :: xs, y :: ys => MVal.beq x y && MVal.beqArr xs ys
  | _, _ => false

/-- Elementwise equality of key/value lists. -/
def MVal.beqDoc : List (String × MVal) → List (String × MVal) → Bool
  | [], [] => true
  | (k, x) :: xs, (l, y) :: ys => k == l && MVal.beq x y && MVal.beqDoc xs ys
  | _, _ => false

end

instance : BEq MVal := ⟨MVal.beq⟩

/-! ## Hex digits and integer parsing (`hex(arg)`, `int(s, 16)`) -/

/-- Big-endian base-16 digit values of `n`, computed with explicit fuel so
that the definition is structural (fuel `n+1` always suffices). -/
def hexDigitsAux : Nat → Nat → List Nat
  | 0, _ => []
  | f + 1, n => if n < 16 then [n] else hexDigitsAux f (n / 16) ++ [n % 16]

/-- Big-endian base-16 digit values of `n` (the digits of Python `hex(n)`). -/
def hexDigits (n : Nat) : List Nat := hexDigitsAux (n + 1) n

/-- The hex characters of Python `hex(n)[2:]` for `n ≥ 0` (lowercase). -/
def hexChars (n : Nat) : List Char := (hexDigits n).map Nat.digitChar

/-- The characters of Python `hex(i)[2:]`: for negative `i`, `hex` prepends
a sign, so slicing off two characters leaves `x` followed by the digits. -/
def hexCharsOfInt (i : Int) : List Char :=
  if i < 0 then 'x' :: hexChars i.natAbs else hexChars i.toNat

/-- Python `str.zfill` for the strings at hand (no leading sign): left-pad
with `'0'` up to width `w`. -/
def zfillChars (l : List Char) (w : Nat) : List Char :=
  List.replicate (w - l.length) '0' ++ l

/-- Numeric value of a hex digit character, by code point: `0`-`9` map to
0-9, `A`-`F` to 10-15, `a`-`f` to 10-15, and anything else is rejected. -/
def hexCharVal (c : Char) : Option Nat :=
  let n := c.toNat
  if n < 48 then none
  else if n ≤ 57 then some (n - 48)
  else if 65 ≤ n && n ≤ 70 then some (n - 55)
  else if 97 ≤ n && n ≤ 102 then some (n - 87)
  else none

/-- Is `c` one of the characters of a base-16 literal? -/
def isHexChar (c : Char) : Bool :=
  (hexCharVal c).isSome

/-- Accumulator loop of base-16 string parsing. -/
def int16Go (acc : Nat) : List Char → Option Nat
  | [] => some acc
  | c :: cs =>
    match hexCharVal c with
    | some d => int16Go (16 * acc + d) cs
    | none => none

/-- Python `int(s, 16)`: `none` models the `ValueError` on an empty or
non-hex string. -/
def int16Chars (l : List Char) : Option Nat :=
  match l with
  | [] => none
  | _ => int16Go 0 l

/-- Python `int(s, 10)` on an all-digit string. -/
def int10Chars (l : List Char) : Option Nat :=
  match l with
  | [] => none
  | _ => l.foldlM (fun acc c =>
      if c.isDigit then some (10 * acc + (c.toNat - '0'.toNat)) else none) 0

/-- Python `int(s, 0)` restricted to the inputs `object_id` produces: a
string starting with `0x` parsed as hex (the `L` long suffix of the
`<random>` branch is accepted, as in Python 2). -/
def int0Chars (l : List Char) : Option Nat :=
  match l with
  | '0' :: 'x' :: rest =>
    int16Chars (if rest.getLast? = some 'L' then rest.dropLast else rest)
  | _ => none


/-! ## Structural string helpers (kernel-computable models of `str` ops) -/

/-- Does `l` start with `pat`? -/
def startsWithChars : List Char → List Char → Bool
  | [], _ => true
  | _ :: _, [] => false
  | p :: ps, c :: cs => p == c && startsWithChars ps cs

/-- Python `pat in s` on character lists. -/
def containsChars (l pat : List Char) : Bool :=
  match l with
  | [] => pat.isEmpty
  | _ :: rest => startsWithChars pat l || containsChars rest pat

/-- Python `s.replace(pat, rep)` (non-overlapping, left to right), with
explicit fuel `l.length` so the definition is structural. -/
def replaceAux (rep pat : List Char) : Nat → List Char → List Char
  | 0, l => l
  | fuel + 1, l =>
    match l with
    | [] => []
    | c :: rest =>
      if startsWithChars pat l then rep ++ replaceAux rep pat fuel (l.drop pat.length)
      else c :: replaceAux rep pat fuel rest

/-- Python `s.replace(pat, rep)` for the non-empty patterns this adapter
uses. -/
def replaceStr (s pat rep : String) : String :=
  if pat.data.isEmpty then s
  else String.mk (replaceAux rep.data pat.data s.data.length s.data)

/-- Python `s.startswith(pat)`. -/
def strStartsWith (s pat : String) : Bool := startsWithChars pat.data s.data

/-- Python `pat in s`. -/
def strContains (s pat : String) : Bool := containsChars s.data pat.data

/-! ## The identifier codec (`MongoDBAdapter.object_id`, `parse_id`) -/

/-- The `bson.objectid.ObjectId` constructor on a hex string: it accepts
exactly a 24-character hex string and otherwise raises `InvalidId`. -/
def objectIdOfHex (l : List Char) : Except String MVal :=
  if (l.length == 24 && l.all isHexChar) then .ok (.oid (String.mk l))
  else .error "InvalidId: not a 12-byte input or a 24-character hex string"

/-- Python truthiness of the values `object_id` receives (`if not arg`). -/
def mvalFalsy : MVal → Bool
  | .vnull => true
  | .vbool b => !b
  | .vint n => n = 0
  | .vstr s => s.isEmpty
  | .varr xs => xs.isEmpty
  | .vdoc kvs => kvs.isEmpty
  | _ => false

/-- `isinstance(arg, (int, long))`, with Python's `bool ⊆ int`. -/
def mvalToInt : MVal → Option Int
  | .vint n => some n
  | .vbool b => some (if b then 1 else 0)
  | _ => none

/-- Python `str.isdigit` over our strings. -/
def isDigitStr (s : String) : Bool := s.data.all Char.isDigit

/-- Python `str.isalnum` over our strings (ASCII letters and digits). -/
def isAlnumStr (s : String) : Bool := s.data.all Char.isAlphanum

/-- The hex-digit string used by the `"<random>"` branch: the uniform-random
digit source is an external collaborator, modelled as a fixed input. -/
def defaultRandHex : String := "0123456789abcdef01234567"

/-- `MongoDBAdapter.object_id`: convert input to a valid ObjectId.

Mirrors the source: falsy input becomes integer `0`; a string is parsed as
base 10 if all digits (and not 24 characters long), `"<random>"` draws 24
hex digits from the random source, an alphanumeric string is parsed as a
`0x` base-16 literal, and anything else raises; an `ObjectId` passes
through; the resulting integer is rendered with `hex()`, zero-filled to 24
characters and given to the `ObjectId` constructor (which raises when the
hex form is longer than 24 characters — `zfill` never truncates). -/
def object_id (randHex : String) (arg0 : MVal) :
    Except String MVal := do
  let arg := if mvalFalsy arg0 then .vint 0 else arg0
  match arg with
  | .oid h => return (.oid h)
  | arg1 =>
    let arg2 : MVal ← (match arg1 with
      | .vstr s =>
        let rawhex := ((replaceStr (replaceStr s "0x" "") "L" "")).length = 24
        if isDigitStr s && !rawhex then
          match int10Chars s.data with
          | some n => pure (MVal.vint n)
          | none => .error "unreachable: isdigit string parses in base 10"
        else if s = "<random>" then
          match int0Chars ('0' :: 'x' :: randHex.data ++ ['L']) with
          | some n => pure (MVal.vint n)
          | none => .error "ValueError: invalid random hex"
        else if isAlnumStr s then
          let s2 := if strStartsWith s "0x" then s else "0x" ++ s
          match int0Chars s2.data with
          | some n => pure (MVal.vint n)
          | none => .error "invalid objectid argument string"
        else
          .error "Invalid objectid argument string. Requires an integer or base 16 value"
      | a => pure a)
    match mvalToInt arg2 with
    | some i => objectIdOfHex (zfillChars (hexCharsOfInt i) 24)
    | none =>
      .error "object_id argument must be of type ObjectId or an objectid representable integer"

/-- `MongoDBAdapter.parse_id`: an `ObjectId` is reinterpreted as
`long(str(value), 16)`; the base adapter's `parse_id` (outside this file's
source) then coerces to a plain integer.  Modelled from the spec: the base
coercion of an integer id is the identity on integers. -/
def parse_id (value : MVal) : Except String MVal :=
  match value with
  | .oid h =>
    match int16Chars h.data with
    | some n => .ok (.vint (n : Int))
    | none => .error "ValueError: invalid hex in ObjectId text"
  | .vint n => .ok (.vint n)
  | _ => .error "TypeError: cannot parse id"

/-! ## The blob codec (`MongoBlob`) -/

/-- Python 2 values reaching `MongoBlob`: `pstr` is a byte string
(Python 2 `str`), `pbinary` a `bson.Binary` with its subtype tag,
`pbytes` a non-string buffer (e.g. Python 3 `bytes`). -/
inductive PyVal where
  | pnone
  | pbytearray (data : List Nat)
  | pbinary (subtype : Nat) (data : List Nat)
  | pbytes (data : List Nat)
  | pstr (data : List Nat)
  deriving DecidableEq, Inhabited

/-- `bson.binary.USER_DEFINED_SUBTYPE`. -/
def USER_DEFINED_SUBTYPE : Nat := 128

/-- `MongoBlob.MONGO_BLOB_BYTES`. -/
def MONGO_BLOB_BYTES : Nat := USER_DEFINED_SUBTYPE

/-- `MongoBlob.MONGO_BLOB_NON_UTF8_STR`. -/
def MONGO_BLOB_NON_UTF8_STR : Nat := USER_DEFINED_SUBTYPE + 1

/-- `value.encode('utf-8')` succeeds on a Python 2 byte string iff it is
ASCII (the implicit `ascii` decode step fails on high bytes). -/
def utf8Encodable (data : List Nat) : Bool := data.all (· < 128)

/-- `MongoBlob.__new__`: `None` and `Binary` pass through unmolested; a
`bytearray` is tagged `MONGO_BLOB_BYTES`; other non-strings become plain
`Binary` (default subtype 0); a UTF-8-encodable string is returned as a
string; a non-encodable string is tagged `MONGO_BLOB_NON_UTF8_STR`. -/
def MongoBlob : PyVal → PyVal
  | .pnone => .pnone
  | .pbinary s d => .pbinary s d
  | .pbytearray d => .pbinary MONGO_BLOB_BYTES d
  | .pbytes d => .pbinary 0 d
  | .pstr d =>
    if utf8Encodable d then .pstr d else .pbinary MONGO_BLOB_NON_UTF8_STR d

/-- `MongoBlob.decode`. -/
def MongoBlob.decode : PyVal → PyVal
  | .pbinary s d =>
    if s == MONGO_BLOB_BYTES then .pbytearray d
    else if s == MONGO_BLOB_NON_UTF8_STR then .pstr d
    else .pbinary s d
  | v => v

/-! ## The expression algebra (pydal `Query` / `Expression` / `Field`) -/

/-- The adapter operator methods reachable from a `Query`/`Expression`
node's `op` slot.  Optional keyword arguments of an operator
(`case_sensitive`) are carried on the constructor. -/
inductive MOp where
  | opAND | opOR | opNOT | opINVERT
  | opEQ | opNE | opLT | opLE | opGT | opGE
  | opBELONGS
  | opADD | opSUB | opMUL | opDIV | opMOD
  | opLIKE (case_sensitive : Bool) | opILIKE
  | opSTARTSWITH | opENDSWITH | opCONTAINS (case_sensitive : Bool)
  | opAGGREGATE | opCOUNT
  deriving DecidableEq, Inhabited

/-- Does pydal build a `Query` (rather than an `Expression`) for this
operator?  Comparisons, boolean connectives and the pattern operators are
`Query`s; arithmetic, `INVERT` and aggregate operators are `Expression`s. -/
def MOp.isQuery : MOp → Bool
  | .opAND | .opOR | .opNOT | .opEQ | .opNE | .opLT | .opLE | .opGT | .opGE
  | .opBELONGS | .opLIKE _ | .opILIKE | .opSTARTSWITH | .opENDSWITH
  | .opCONTAINS _ => true
  | _ => false

/-- An algebra tree: a `Field` leaf (table name, field name, declared
type), a literal Python value, or a `Query`/`Expression` node carrying its
operator, its declared result type (`Expression.type`), a first operand
and an optional second operand. -/
inductive MExp where
  | field (tablename name ftype : String)
  | lit (v : MVal)
  | node (op : MOp) (etype : Option String) (first : MExp) (second : Option MExp)
  deriving Inhabited

/-- `isinstance(expression, Query)`. -/
def MExp.isQuery : MExp → Bool
  | .node op _ _ _ => op.isQuery
  | _ => false

/-- `expression.type`: a `Field` or `Expression` carries a declared type;
reading `.type` off a plain value raises `AttributeError`. -/
def MExp.pytype : MExp → Except String (Option String)
  | .field _ _ ftype => .ok (some ftype)
  | .node _ etype _ _ => .ok etype
  | .lit _ => .error "AttributeError: value has no attribute type"

mutual

/-- Size measure for the termination of the expression compiler: literal
payloads and name strings do not count, so the Query-node rewrite (which
only replaces a name and a literal) maps a node to operands of measure 1
each, strictly below the node's measure. -/
def MExp.msize : MExp → Nat
  | .field _ _ _ => 1
  | .lit _ => 1
  | .node _ _ first second => 2 + first.msize + MExp.msizeO second

/-- Measure of an optional operand. -/
def MExp.msizeO : Option MExp → Nat
  | none => 0
  | some e => e.msize

end

/-- Compiled fragments are string-keyed documents; using an unhashable
compiled fragment as a dict key raises. -/
def mvalKey : MVal → Except String String
  | .vstr s => .ok s
  | _ => .error "TypeError: unhashable filter key"

mutual

/-- Python `repr` of a modelled value (used by `str` on containers). -/
def pyReprOf : MVal → String
  | .vnull => "None"
  | .vbool b => cond b "True" "False"
  | .vint n => toString n
  | .vstr s => "'" ++ s ++ "'"
  | .varr xs => "[" ++ pyReprList xs ++ "]"
  | .vdoc kvs => "\x7b" ++ pyReprDoc kvs ++ "\x7d"
  | .oid h => "ObjectId('" ++ h ++ "')"
  | .vbin s _ => "Binary(" ++ toString s ++ ")"
  | .vdate y m d =>
    "datetime.date(" ++ toString y ++ ", " ++ toString m ++ ", " ++ toString d ++ ")"
  | .vtime h mi s =>
    "datetime.time(" ++ toString h ++ ", " ++ toString mi ++ ", " ++ toString s ++ ")"
  | .vdatetime y m d h mi s =>
    "datetime.datetime(" ++ toString y ++ ", " ++ toString m ++ ", " ++ toString d ++
      ", " ++ toString h ++ ", " ++ toString mi ++ ", " ++ toString s ++ ")"

/-- Comma-joined `repr`s of list elements. -/
def pyReprList : List MVal → String
  | [] => ""
  | [x] => pyReprOf x
  | x :: xs => pyReprOf x ++ ", " ++ pyReprList xs

/-- Comma-joined `'key': repr` pairs of a dict. -/
def pyReprDoc : List (String × MVal) → String
  | [] => ""
  | [(k, v)] => "'" ++ k ++ "': " ++ pyReprOf v
  | (k, v) :: xs => "'" ++ k ++ "': " ++ pyReprOf v ++ ", " ++ pyReprDoc xs

end

/-- Python `str` of a modelled value. -/
def pyStrOf : MVal → String
  | .vstr s => s
  | v => pyReprOf v

/-- `str` of an operand appearing in an error message. -/
def fieldStrOf : MExp → String
  | .field t n _ => t ++ "." ++ n
  | .node _ _ _ _ => "<expression>"
  | .lit v => pyStrOf v

/-- `MongoDBAdapter._aggregate_map`. -/
def aggregate_map : String → Option String
  | "SUM" => some "$sum"
  | "MAX" => some "$max"
  | "MIN" => some "$min"
  | "AVG" => some "$avg"
  | _ => none

/-- Python 2 `re.escape`: backslash every character outside
`[A-Za-z0-9_]`. -/
def reEscape (s : String) : String :=
  String.mk (s.data.foldr
    (fun c acc => if c.isAlphanum || c == '_' then c :: acc else '\\' :: c :: acc) [])

/-- Is this declared type one of the textual ones `ADD` concatenates? -/
def isTextType : Option String → Bool
  | some t => t == "string" || t == "text" || t == "password"
  | none => false

/-- The `try: field.type in [...] except: pass` probe of `ADD`. -/
def concatType (e : MExp) : Bool :=
  match e.pytype with
  | .ok t => isTextType t
  | .error _ => false

/-- `MongoBlob` on values in the adapter's coercion pipeline: a Lean
string models UTF-8-encodable text and passes through; `Binary` and `None`
pass through; non-buffer values make the `Binary` constructor raise. -/
def mongoBlobMVal : MVal → Except String MVal
  | .vnull => .ok .vnull
  | .vbin s d => .ok (.vbin s d)
  | .vstr s => .ok (.vstr s)
  | _ => .error "TypeError: Binary requires a byte buffer"

/-- The `date` arm of `represent`: `datetime.combine(value, time(0,0,0))`,
with `None` passing through. -/
def representDate : MVal → Except String MVal
  | .vnull => .ok .vnull
  | .vdate y m d => .ok (.vdatetime y m d 0 0 0)
  | _ => .error "TypeError: combine() argument 1 must be a date"

/-- The `time` arm of `represent`: `datetime.combine(date(2000,1,1), value)`,
with `None` passing through. -/
def representTime : MVal → Except String MVal
  | .vnull => .ok .vnull
  | .vtime h mi s => .ok (.vdatetime 2000 1 1 h mi s)
  | _ => .error "TypeError: combine() argument 2 must be a time"

/-- The `list:reference` arm of `represent`: coerce every element through
the identifier codec. -/
def representListRef : MVal → Except String MVal
  | .varr xs => do
    let ys ← xs.mapM (object_id defaultRandHex)
    pure (.varr ys)
  | _ => .error "TypeError: list:reference value is not iterable"

/-- `MongoDBAdapter.represent`: an `ObjectId` skips the base coercion;
`date`/`time` are combined into datetimes, `blob` goes through the blob
codec, id/reference types (and `list:reference`) go through the identifier
codec.  The generic base coercion (`NoSQLAdapter.represent`, outside this
source) is modelled from the spec: "any other declared type → pass through
a generic base coercion", treated as the identity, with `None` passing
through. -/
def represent (obj : MVal) (fieldtype : Option String) : Except String MVal :=
  match fieldtype with
  | none => .ok obj
  | some ft =>
    if ft = "date" then representDate obj
    else if ft = "time" then representTime obj
    else if ft = "blob" then mongoBlobMVal obj
    else if strStartsWith ft "list:" then
      if strStartsWith ft "list:reference" then representListRef obj
      else .ok obj
    else if strStartsWith ft "reference" || ft = "id" then
      object_id defaultRandHex obj
    else .ok obj

/-- The right-operand coercion of the Query-node rewrite
(`expression.second = self.object_id(...)`, elementwise on a
tuple/list/set): returns the coerced value. -/
def coerceSecondVal (second : Option MExp) : Except String MVal :=
  match second with
  | none => object_id defaultRandHex .vnull
  | some (.lit (.varr xs)) => do
    let ys ← xs.mapM (object_id defaultRandHex)
    pure (.varr ys)
  | some (.lit v) => object_id defaultRandHex v
  | some _ =>
    .error "object_id argument must be of type ObjectId or an objectid representable integer"

/-- The in-place rewrite `expand` performs on a `Query` node whose left
operand is an id- or reference-typed `Field`: the field's `name` is
overwritten with `_id` (id-typed fields only) and the second operand is
replaced by its identifier coercion.  This is the mutation the compiler
leaves behind in the caller's tree. -/
def expandMutate (e : MExp) : Except String MExp :=
  match e with
  | .node op ety (.field t n ftype) second =>
    if op.isQuery && (ftype == "id" || strContains ftype "reference") then do
      let n2 := if ftype == "id" then "_id" else n
      let cv ← coerceSecondVal second
      pure (.node op ety (.field t n2 ftype) (some (.lit cv)))
    else pure e
  | _ => pure e

mutual

/-- `MongoDBAdapter.expand` (and, with `agg = true`, the
`MongoDbAggregateExpander`'s `expand`, which renders a field reference as
`'$' + name`).  The Query-node rewrite is applied first, as in the source;
since that rewrite is idempotent (re-coercing an `ObjectId` is the
identity), the re-expansion the NOT operator performs on already-rewritten
subtrees computes the same fragments as expansion of the original
subtrees, which is how the recursion is phrased here. -/
def expandM (agg : Bool) (expression : MExp) (field_type : Option String) :
    Except String MVal := do
  match expression with
  | .node op _ety (.field t n ftype) second =>
    if op.isQuery && (ftype == "id" || strContains ftype "reference") then do
      -- the in-place Query-node rewrite (`expandMutate`)
      let n2 := if ftype == "id" then "_id" else n
      let cv ← coerceSecondVal second
      mongoOp2 agg op (.field t n2 ftype) (.lit cv)
    else
      match second with
      | some s => mongoOp2 agg op (.field t n ftype) s
      | none => mongoOp1 agg op (.field t n ftype)
  | .node op _ first second =>
    match second with
    | some s => mongoOp2 agg op first s
    | none => mongoOp1 agg op first
  | .field _ name ftype =>
    if ftype == "id" then pure (.vstr "_id")
    else if agg then pure (.vstr ("$" ++ name))
    else pure (.vstr name)
  | .lit v =>
    match field_type with
    | some ft => represent v (some ft)
    | none =>
      match v with
      | .varr xs => do
        let items ← xs.mapM (fun item => represent item none)
        pure (.varr items)
      | _ => pure v
termination_by (expression.msize, 1)
decreasing_by all_goals (simp [Prod.lex_def, MExp.msize, MExp.msizeO]; try omega)

/-- Operator dispatch `op.__func__(self, first)` (one operand); each arm
transcribes the correspondingly named adapter method. -/
def mongoOp1 (agg : Bool) (op : MOp) (first : MExp) : Except String MVal := do
  match op with
  | .opNOT => mongoNOT agg first
  | .opINVERT => do
    let v ← expandM agg first none
    pure (.vstr ("-" ++ pyStrOf v))
  | .opCOUNT => pure (.vdoc [("$sum", .vint 1)])
  | .opEQ => do
    let k ← mvalKey (← expandM agg first none)
    let ft ← first.pytype
    let v ← (match ft with
      | some ft2 => represent .vnull (some ft2)
      | none => pure MVal.vnull)
    pure (.vdoc [(k, v)])
  | .opNE => do
    let k ← mvalKey (← expandM agg first none)
    let ft ← first.pytype
    let v ← (match ft with
      | some ft2 => represent .vnull (some ft2)
      | none => pure MVal.vnull)
    pure (.vdoc [(k, .vdoc [("$ne", v)])])
  | .opLT | .opLE | .opGT | .opGE =>
    -- `_validate_second`: comparing against an absent operand is invalid
    .error ("RuntimeError: Cannot compare " ++ fieldStrOf first ++ " with None")
  | _ => .error "TypeError: missing required positional argument"
termination_by (first.msize + 1, 0)
decreasing_by all_goals (simp [Prod.lex_def, MExp.msize, MExp.msizeO]; try omega)

/-- Operator dispatch `op.__func__(self, first, second, **optional_args)`
(two operands); each arm transcribes the correspondingly named adapter
method. -/
def mongoOp2 (agg : Bool) (op : MOp) (first second : MExp) :
    Except String MVal := do
  match op with
  | .opAND =>
    pure (.vdoc [("$and",
      .varr [← expandM agg first none, ← expandM agg second none])])
  | .opOR =>
    pure (.vdoc [("$or",
      .varr [← expandM agg first none, ← expandM agg second none])])
  | .opEQ => do
    let k ← mvalKey (← expandM agg first none)
    let ft ← first.pytype
    pure (.vdoc [(k, ← expandM agg second ft)])
  | .opNE => do
    let k ← mvalKey (← expandM agg first none)
    let ft ← first.pytype
    pure (.vdoc [(k, .vdoc [("$ne", ← expandM agg second ft)])])
  | .opLT => do
    let k ← mvalKey (← expandM agg first none)
    let ft ← first.pytype
    pure (.vdoc [(k, .vdoc [("$lt", ← expandM agg second ft)])])
  | .opLE => do
    let k ← mvalKey (← expandM agg first none)
    let ft ← first.pytype
    pure (.vdoc [(k, .vdoc [("$lte", ← expandM agg second ft)])])
  | .opGT => do
    let k ← mvalKey (← expandM agg first none)
    let ft ← first.pytype
    pure (.vdoc [(k, .vdoc [("$gt", ← expandM agg second ft)])])
  | .opGE => do
    let k ← mvalKey (← expandM agg first none)
    let ft ← first.pytype
    pure (.vdoc [(k, .vdoc [("$gte", ← expandM agg second ft)])])
  | .opBELONGS =>
    match second with
    | .lit (.vstr _) =>
      -- a pre-serialized nested query is unsupported
      .error "RuntimeError: nested queries not supported"
    | .lit (.varr xs) => do
      let ft ← first.pytype
      let items ← xs.mapM (fun item => expandM agg (.lit item) ft)
      let k ← mvalKey (← expandM agg first none)
      pure (.vdoc [(k, .vdoc [("$in", .varr items)])])
    | _ => .error "TypeError: argument is not iterable"
  | .opADD => do
    let op_code := if concatType first || concatType second then "$concat" else "$add"
    let v1 ← expandM agg first none
    let ft ← first.pytype
    let v2 ← expandM agg second ft
    pure (.vdoc [(op_code, .varr [v1, v2])])
  | .opSUB => do
    let v1 ← expandM agg first none
    let ft ← first.pytype
    let v2 ← expandM agg second ft
    pure (.vdoc [("$subtract", .varr [v1, v2])])
  | .opMUL => do
    let v1 ← expandM agg first none
    let ft ← first.pytype
    let v2 ← expandM agg second ft
    pure (.vdoc [("$multiply", .varr [v1, v2])])
  | .opDIV => do
    let v1 ← expandM agg first none
    let ft ← first.pytype
    let v2 ← expandM agg second ft
    pure (.vdoc [("$divide", .varr [v1, v2])])
  | .opMOD => do
    let v1 ← expandM agg first none
    let ft ← first.pytype
    let v2 ← expandM agg second ft
    pure (.vdoc [("$mod", .varr [v1, v2])])
  | .opAGGREGATE =>
    match second with
    | .lit (.vstr w) =>
      match aggregate_map w with
      | some s =>
        match expandM true first none with
        | .ok v => pure (.vdoc [(s, v)])
        | .error _ => .error ("NotImplementedError: '" ++ w ++ "' not implemented")
      | none => .error ("NotImplementedError: '" ++ w ++ "' not implemented")
    | _ => .error "NotImplementedError: aggregate 'what' not implemented"
  | .opCOUNT =>
    match second with
    | .lit v =>
      if mvalFalsy v then pure (.vdoc [("$sum", .vint 1)])
      else .error "NotImplementedError: distinct not implmented for count op"
    | _ => .error "NotImplementedError: distinct not implmented for count op"
  | .opLIKE cs => do
    let regex ← buildLikeRegex agg second cs false false true true
    let k ← mvalKey (← expandM agg first none)
    pure (.vdoc [(k, regex)])
  | .opILIKE => do
    -- `ILIKE` delegates to `LIKE` with `case_sensitive=False`
    let regex ← buildLikeRegex agg second false false false true true
    let k ← mvalKey (← expandM agg first none)
    pure (.vdoc [(k, regex)])
  | .opSTARTSWITH => do
    let regex ← buildLikeRegex agg second true false true true false
    let k ← mvalKey (← expandM agg first none)
    pure (.vdoc [(k, regex)])
  | .opENDSWITH => do
    let regex ← buildLikeRegex agg second true true false true false
    let k ← mvalKey (← expandM agg first none)
    pure (.vdoc [(k, regex)])
  | .opCONTAINS cs =>
    match first, second with
    | f, .lit (.oid h) => do
      let k ← mvalKey (← expandM agg f none)
      pure (.vdoc [(k, .oid h)])
    | .field _ fn "list:string", .field _ sn "string" =>
      pure (.vdoc [("$where",
        .vstr ("this." ++ fn ++ ".indexOf(this." ++ sn ++ ") > -1"))])
    | .field t fn "list:string", s2 => do
      let val ← buildLikeRegex agg s2 cs false false true false
      let k ← mvalKey (← expandM agg (.field t fn "list:string") none)
      pure (.vdoc [(k, val)])
    | f, s2 => do
      let val ← buildLikeRegex agg s2 cs false false false false
      let k ← mvalKey (← expandM agg f none)
      pure (.vdoc [(k, val)])
  | .opNOT => .error "TypeError: NOT takes one operand"
  | .opINVERT => .error "TypeError: INVERT takes one operand"
termination_by (first.msize + second.msize + 1, 0)
decreasing_by all_goals (simp [Prod.lex_def, MExp.msize, MExp.msizeO]; try omega)

/-- `MongoDBAdapter.NOT`: expand the operand; a list-valued body gets De
Morgan's law (negate both branches of the operand node, flipping
`$and`/`$or`); a `$ne` body collapses the double negation; any other body
is wrapped in `$not` (or `$ne` when it has no keys). -/
def mongoNOT (agg : Bool) (first : MExp) : Except String MVal := do
  let op ← expandM agg first none
  match op with
  | .vdoc ((op_k, .varr _) :: _) =>
    -- apply De Morgan law for and/or
    let not_op := if op_k == "$or" then "$and" else "$or"
    match first with
    | .node _ _ f (some s) => do
      let nf ← mongoNOT agg f
      let ns ← mongoNOT agg s
      pure (.vdoc [(not_op, .varr [nf, ns])])
    | .node _ _ f none => do
      let _ ← mongoNOT agg f
      .error "TypeError: NOT of None"
    | _ => .error "AttributeError: operand has no attribute first"
  | .vdoc ((op_k, .vdoc [("$ne", v)]) :: _) => pure (.vdoc [(op_k, v)])
  | .vdoc ((op_k, .vdoc kvs) :: _) =>
    pure (.vdoc [(op_k, .vdoc [("$not", .vdoc kvs)])])
  | .vdoc ((op_k, body) :: _) => pure (.vdoc [(op_k, .vdoc [("$ne", body)])])
  | .vdoc [] => .error "IndexError: list index out of range"
  | _ => .error "TypeError: fragment is not a mapping"
termination_by (first.msize, 2)
decreasing_by all_goals (simp [Prod.lex_def, MExp.msize, MExp.msizeO]; try omega)

/-- `MongoDBAdapter._build_like_regex` with the operand already named:
escape the text, reinstate SQL wildcards when requested, and anchor per
the flags. -/
def buildLikeRegex (agg : Bool) (arg : MExp)
    (case_sensitive ends_with starts_with whole_string like_wildcards : Bool) :
    Except String MVal := do
  let base ← expandM agg arg (some "string")
  match base with
  | .vstr b =>
    let need_regex := whole_string || !case_sensitive || starts_with || ends_with
      || (like_wildcards && (strContains b "_" || strContains b "%"))
    if !need_regex then pure (.vstr b)
    else
      let e1 := reEscape b
      let e2 := if like_wildcards then
          replaceStr (replaceStr (replaceStr e1 "\\%" ".*") "\\_" ".") "_" "."
        else e1
      let pat := if starts_with then "^" ++ e2
        else if ends_with then e2 ++ "$"
        else if whole_string then "^" ++ e2 ++ "$"
        else e2
      let regex := [("$regex", MVal.vstr pat)]
      let regex := if !case_sensitive then regex ++ [("$options", MVal.vstr "i")]
        else regex
      pure (.vdoc regex)
  | _ => .error "TypeError: expected string pattern"
termination_by (arg.msize, 2)
decreasing_by all_goals (simp [Prod.lex_def, MExp.msize, MExp.msizeO]; try omega)

end

/-! ## The document store (the external MongoDB collaborator)

The store itself is not part of this source; its filter/update semantics
are modelled from the spec's downstream-interface section: documents are
string-keyed mappings, filters are documents keyed by field names or by
`$`-prefixed operators, and writes report matched/deleted counts.  Regex
filters and result ordering are not observed by any claim and are left
unmatched/unsorted. -/

/-- A stored document. -/
abbrev Doc := List (String × MVal)

/-- Dictionary key lookup. -/
def Doc.lookup : Doc → String → Option MVal
  | [], _ => none
  | (k2, v) :: rest, k => if k2 == k then some v else Doc.lookup rest k

/-- Dictionary assignment: replace in place, appending a new key at the
end (Python dict insertion order). -/
def Doc.set : Doc → String → MVal → Doc
  | [], k, v => [(k, v)]
  | (k2, w) :: rest, k, v =>
    if k2 == k then (k2, v) :: rest else (k2, w) :: Doc.set rest k v

/-- A collection is a list of documents in insertion order. -/
abbrev Collection := List Doc

/-- The store: named collections (a missing collection reads as empty;
Mongo auto-creates collections). -/
structure Store where
  tables : List (String × Collection)

/-- Assoc update for the store's table list. -/
def setTables (l : List (String × Collection)) (t : String) (c : Collection) :
    List (String × Collection) :=
  match l with
  | [] => [(t, c)]
  | (t2, c2) :: rest =>
    if t2 == t then (t2, c) :: rest else (t2, c2) :: setTables rest t c

/-- Read a collection. -/
def Store.get (s : Store) (t : String) : Collection :=
  match s.tables.find? (fun tc => tc.1 == t) with
  | some tc => tc.2
  | none => []

/-- Replace a collection. -/
def Store.set (s : Store) (t : String) (c : Collection) : Store :=
  ⟨setTables s.tables t c⟩

/-- Mongo equality between a document field value and a filter literal:
direct equality, or containment for array-valued fields; a missing field
matches the literal `null`. -/
def litMatch (dv : Option MVal) (x : MVal) : Bool :=
  match dv with
  | some w => w == x || (match w with | .varr xs => xs.contains x | _ => false)
  | none => x == .vnull

/-- Integer comparison used by the `$lt`/`$lte`/`$gt`/`$gte` operators
(only same-type numeric comparisons are modelled). -/
def cmpInt (dv : Option MVal) (x : MVal) (f : Int → Int → Bool) : Bool :=
  match dv, x with
  | some (.vint a), .vint b => f a b
  | _, _ => false

mutual

/-- Does document `d` satisfy the filter document? -/
def docMatches (d : Doc) : MVal → Bool
  | .vdoc kvs => condsMatch d kvs
  | _ => false

/-- All filter conditions hold. -/
def condsMatch (d : Doc) : List (String × MVal) → Bool
  | [] => true
  | (k, v) :: rest => condMatch d k v && condsMatch d rest

/-- One filter condition: `$and`/`$or` connectives, an operator document,
or literal equality on a field. -/
def condMatch (d : Doc) (k : String) (v : MVal) : Bool :=
  if k == "$and" then
    match v with
    | .varr fs => allMatch d fs
    | _ => false
  else if k == "$or" then
    match v with
    | .varr fs => anyMatch d fs
    | _ => false
  else
    match v with
    | .vdoc ((k1, x1) :: rest) =>
      if strStartsWith k1 "$" then opsMatch (Doc.lookup d k) ((k1, x1) :: rest)
      else litMatch (Doc.lookup d k) (.vdoc ((k1, x1) :: rest))
    | other => litMatch (Doc.lookup d k) other

/-- Every subfilter matches. -/
def allMatch (d : Doc) : List MVal → Bool
  | [] => true
  | f :: fs => docMatches d f && allMatch d fs

/-- Some subfilter matches. -/
def anyMatch (d : Doc) : List MVal → Bool
  | [] => false
  | f :: fs => docMatches d f || anyMatch d fs

/-- All operators of an operator document hold on the field value. -/
def opsMatch (dv : Option MVal) : List (String × MVal) → Bool
  | [] => true
  | (opk, x) :: rest => opMatch dv opk x && opsMatch dv rest

/-- One `$`-operator on a field value. -/
def opMatch (dv : Option MVal) (opk : String) (x : MVal) : Bool :=
  if opk == "$ne" then !litMatch dv x
  else if opk == "$in" then
    match x with
    | .varr xs =>
      (match dv with
       | some w => xs.contains w ||
           (match w with | .varr ws => ws.any (fun e => xs.contains e) | _ => false)
       | none => xs.contains .vnull)
    | _ => false
  else if opk == "$lt" then cmpInt dv x (fun a b => a < b)
  else if opk == "$lte" then cmpInt dv x (fun a b => a ≤ b)
  else if opk == "$gt" then cmpInt dv x (fun a b => a > b)
  else if opk == "$gte" then cmpInt dv x (fun a b => a ≥ b)
  else if opk == "$not" then
    match x with
    | .vdoc kvs => !opsMatch dv kvs
    | _ => false
  else false

end

/-- `find`: the documents matching a filter (`None` matches all). -/
def findDocs (c : Collection) (filter : Option MVal) : Collection :=
  match filter with
  | none => c
  | some f => c.filter (fun d => docMatches d f)

/-- Cursor `skip`/`limit` (limit 0 = unbounded; pymongo treats a negative
limit as its absolute value). -/
def applySkipLimit (c : Collection) (skip limit : Int) : Collection :=
  let c2 := c.drop skip.toNat
  if limit == 0 then c2 else c2.take limit.natAbs

/-- Projection of a `find`: keep `_id` plus the requested keys. -/
def projectFields (d : Doc) (keys : List String) : Doc :=
  d.filter (fun kv => kv.1 == "_id" || keys.contains kv.1)

/-- Apply a `$set`/`$pull` update document to one document. -/
def applyUpdate (upd : MVal) (d : Doc) : Doc :=
  match upd with
  | .vdoc [("$set", .vdoc kvs)] => kvs.foldl (fun acc kv => Doc.set acc kv.1 kv.2) d
  | .vdoc [("$pull", .vdoc kvs)] =>
    kvs.foldl (fun acc kv =>
      match Doc.lookup acc kv.1 with
      | some (.varr xs) => Doc.set acc kv.1 (.varr (xs.filter (fun x => !(x == kv.2))))
      | _ => acc) d
  | _ => d

/-- `update_many`: update matching documents, report the matched count. -/
def updateManyDocs (c : Collection) (filter upd : MVal) : Collection × Nat :=
  (c.map (fun d => if docMatches d filter then applyUpdate upd d else d),
   (c.filter (fun d => docMatches d filter)).length)

/-- `delete_many`: remove matching documents, report the deleted count. -/
def deleteManyDocs (c : Collection) (filter : MVal) : Collection × Nat :=
  (c.filter (fun d => !docMatches d filter),
   (c.filter (fun d => docMatches d filter)).length)

/-- `replace_one`: replace the first matching document. -/
def replaceOneDocs : Collection → MVal → Doc → Collection × Nat
  | [], _, _ => ([], 0)
  | d :: rest, f, nd =>
    if docMatches d f then (nd :: rest, 1)
    else
      let r := replaceOneDocs rest f nd
      (d :: r.1, r.2)

/-- `s[1:]` for field references in aggregation expressions. -/
def stringTail (s : String) : String := String.mk s.data.tail

mutual

/-- Evaluate an aggregation expression on one document (`$literal`,
`$concat`, `$add`, `$and`, `'$field'` references; anything else yields
null). -/
def evalAggExpr (d : Doc) : MVal → MVal
  | .vstr s =>
    if strStartsWith s "$" then
      match Doc.lookup d (stringTail s) with
      | some v => v
      | none => .vnull
    else .vstr s
  | .vdoc [("$literal", x)] => x
  | .vdoc [("$concat", .varr xs)] =>
    match evalConcat d xs with
    | some s => .vstr s
    | none => .vnull
  | .vdoc [("$add", .varr xs)] =>
    match evalSum d xs with
    | some n => .vint n
    | none => .vnull
  | .vdoc [("$and", .varr xs)] => .vbool (evalAll d xs)
  | v => v

/-- `$concat` of string-valued subexpressions. -/
def evalConcat (d : Doc) : List MVal → Option String
  | [] => some ""
  | x :: xs =>
    match evalAggExpr d x, evalConcat d xs with
    | .vstr s, some rest => some (s ++ rest)
    | _, _ => none

/-- `$add` of integer-valued subexpressions. -/
def evalSum (d : Doc) : List MVal → Option Int
  | [] => some 0
  | x :: xs =>
    match evalAggExpr d x, evalSum d xs with
    | .vint n, some rest => some (n + rest)
    | _, _ => none

/-- `$and` of subexpressions (null/false are falsy). -/
def evalAll (d : Doc) : List MVal → Bool
  | [] => true
  | x :: xs =>
    !(mvalFalsy (evalAggExpr d x)) && evalAll d xs

end

/-- A `$project` stage on one document: entries mapping to `1` pass the
stored value through (omitted when absent), other entries are computed
aggregation expressions; `_id` is included by default. -/
def projectDoc (proj : List (String × MVal)) (d : Doc) : Doc :=
  (match Doc.lookup d "_id" with
   | some v => [("_id", v)]
   | none => []) ++
  proj.foldr (fun kv acc =>
    if kv.1 == "_id" then acc
    else
      match kv.2 with
      | .vint 1 => (match Doc.lookup d kv.1 with
        | some v => (kv.1, v) :: acc
        | none => acc)
      | spec => (kv.1, evalAggExpr d spec) :: acc) []

/-- A `$group` accumulator (`$sum`/`$max`/`$min`/`$avg`) over the grouped
documents. -/
def evalAccum (c : Collection) (spec : MVal) : MVal :=
  match spec with
  | .vdoc [(op, arg)] =>
    let vals := c.map (fun d => evalAggExpr d arg)
    let ints := vals.filterMap (fun v => match v with | .vint n => some n | _ => none)
    if op == "$sum" then .vint (ints.foldl (· + ·) 0)
    else if op == "$max" then
      (match ints.max? with | some n => .vint n | none => .vnull)
    else if op == "$min" then
      (match ints.min? with | some n => .vint n | none => .vnull)
    else if op == "$avg" then
      (match ints with
       | [] => .vnull
       | _ => .vint (ints.foldl (· + ·) 0 / ints.length))
    else .vnull
  | _ => .vnull

/-- A `$group` stage with a constant group key: no input documents yield
no groups; otherwise one output document with the group key under `_id`
and each accumulator evaluated over the input. -/
def groupDocs (c : Collection) (proj : List (String × MVal)) : Collection :=
  match c with
  | [] => []
  | _ => [proj.map (fun kv =>
      (kv.1, if kv.1 == "_id" then kv.2 else evalAccum c kv.2))]

/-- The store calls a claim observes (write calls, plus the issued reads
of `select`). -/
inductive DbCall where
  | updateMany (table : String) (filter upd : MVal)
  | replaceOne (table : String) (filter : MVal) (doc : Doc)
  | deleteMany (table : String) (filter : MVal)
  | findCall (table : String) (filter : Option MVal) (projKeys : List String)
      (skip limit : Int)
  | aggregateCall (table : String) (pipeline : List MVal)

/-! ## Schema metadata (the external pydal object model) -/

/-- An inbound reference field descriptor (`table._referenced_by` /
`_referenced_by_list` entries): the referencing table, the field name,
the declared type and the on-delete policy. -/
structure RefField where
  tablename : String
  name : String
  ftype : String
  ondelete : String

/-- Table metadata: field (name, type) pairs and the inbound reference
descriptors, grouped singular vs. list-valued. -/
structure TableM where
  name : String
  fields : List (String × String)
  referenced_by : List RefField
  referenced_by_list : List RefField

/-- The database schema. -/
abbrev DbSchema := List TableM

/-- Look a table up in the schema. -/
def DbSchema.get (db : DbSchema) (t : String) : TableM :=
  match db.find? (fun tm => tm.name == t) with
  | some tm => tm
  | none => ⟨t, [], [], []⟩

/-- Modelled from the spec: `get_table` of the external base adapter —
"every non-literal leaf must resolve to exactly one originating table
name, used to select the target collection"; resolved here as the first
`Field` leaf's table. -/
def MExp.getTablename : MExp → Option String
  | .field t _ _ => some t
  | .lit _ => none
  | .node _ _ f s =>
    match f.getTablename with
    | some t => some t
    | none =>
      match s with
      | some x => x.getTablename
      | none => none

/-- `self.get_table(query)`. -/
def get_table (q : MExp) : Except String String :=
  match q.getTablename with
  | some t => .ok t
  | none => .error "SyntaxError: table not found"

/-- `MongoDBAdapter._expand_query`: resolve the target collection (from
the argument, or from the query) and compile the filter.  No common
filters are registered in this model, so the common-filter hook is the
identity. -/
def expand_query (query : MExp) (tablename : Option String) :
    Except String (String × MVal) := do
  let tn ← (match tablename with
    | some t => pure t
    | none => get_table query)
  let f ← expandM false query none
  pure (tn, f)

/-! ## The query executor -/

/-- `MongoDBAdapter.count` (the `return_tuple` form: collection name,
compiled filter, count). -/
def mcount (store : Store) (query : MExp) (distinct : Bool) :
    Except String (String × MVal × Nat) := do
  if distinct then throw "RuntimeError: COUNT DISTINCT not supported"
  if !query.isQuery then throw "SyntaxError: Not Supported"
  let (tn, f) ← expand_query query none
  pure (tn, f, (findDocs (store.get tn) (some f)).length)

/-- An assigned update value: a plain Python value or an `Expression`. -/
inductive UpdVal where
  | uval (v : MVal)
  | uexpr (e : MExp)

/-- `isinstance(value, Expression)`. -/
def UpdVal.isExpr : UpdVal → Bool
  | .uexpr _ => true
  | _ => false

/-- `MongoDBAdapter.update`.  Besides the adjusted-row count it returns
the resulting store and the trace of write calls issued, which is what
the frame-effect claims observe.  `tableFields` models
`field.table.fields` (used to build the pass-through projection);
`serverGe26` models `server_version_major >= 2.6`; `defaultSafe` the
adapter-level write-acknowledgment default. -/
def mupdate (serverGe26 defaultSafe : Bool) (store : Store)
    (tablename : String) (query : MExp) (tableFields : List String)
    (fields : List ((String × String) × UpdVal)) (safe : Option Bool) :
    Except String (Nat × Store × List DbCall) := do
  if !query.isQuery then throw "RuntimeError: Not implemented"
  let safeN : Bool := match safe with | none => defaultSafe | some b => b
  let (ctn, f, amount) ←
    if safeN then do
      let (tn, f0) ← expand_query query (some tablename)
      pure (tn, f0, 0)
    else do
      let (tn, f0, cnt) ← mcount store query false
      pure (tn, f0, cnt)
  -- an update against zero matching documents short-circuits (unsafe path)
  if !safeN && amount == 0 then
    return (amount, store, [])
  if fields.any (fun fv => fv.2.isExpr) then do
    -- expression-update mode: all-other-fields pass-through projection
    let proj0 : Doc := (tableFields.filter
      (fun fn => !(fn == "_id" || fn == "id"))).map (fun fn => (fn, MVal.vint 1))
    let proj ← fields.foldlM (fun acc fv => do
        let fname := fv.1.1
        let ftyp := fv.1.2
        if fname == "_id" || fname == "id" then pure acc
        else do
          let expanded ← (match fv.2 with
            | .uexpr e => expandM true e (some ftyp)
            | .uval v => expandM true (.lit v) (some ftyp))
          let expanded2 ← (match fv.2 with
            | .uexpr _ => pure expanded
            | .uval _ =>
              if serverGe26 then pure (MVal.vdoc [("$literal", expanded)])
              else if ftyp == "string" || ftyp == "text" || ftyp == "password" then
                pure (MVal.vdoc [("$concat", .varr [expanded])])
              else if ftyp == "integer" || ftyp == "bigint" || ftyp == "float"
                  || ftyp == "double" then
                pure (MVal.vdoc [("$add", .varr [expanded])])
              else if ftyp == "boolean" then
                pure (MVal.vdoc [("$and", .varr [expanded])])
              else if ftyp == "date" || ftyp == "time" || ftyp == "datetime" then
                pure (MVal.vdoc [("$add", .varr [expanded])])
              else
                throw ("RuntimeError: updating with expressions not supported "
                  ++ "for field type '" ++ ftyp ++ "' in MongoDB version < 2.6"))
          pure (Doc.set acc fname expanded2)) proj0
    -- match→project pipeline; replace each projected document wholesale
    let outdocs := (findDocs (store.get ctn) (some f)).map (projectDoc proj)
    let res ← outdocs.foldlM (fun st doc => do
        match Doc.lookup doc "_id" with
        | none => throw "RuntimeError: uncaught exception when updating rows: KeyError"
        | some idv =>
          let rfilter := MVal.vdoc [("_id", idv)]
          let r := replaceOneDocs st.2.1 rfilter doc
          let amt2 := if safeN then st.1 + r.2 else st.1
          pure (amt2, r.1, st.2.2 ++ [DbCall.replaceOne ctn rfilter doc]))
      ((amount, store.get ctn, ([] : List DbCall)) : Nat × Collection × List DbCall)
    return (res.1, store.set ctn res.2.1, res.2.2)
  else do
    -- plain field-set update
    let pairs ← fields.foldrM (fun fv acc => do
        if fv.1.1 == "_id" || fv.1.1 == "id" then pure acc
        else
          match fv.2 with
          | .uval v => do
            let r ← represent v (some fv.1.2)
            pure ((fv.1.1, r) :: acc)
          | .uexpr _ => throw "TypeError: cannot represent an expression value")
      ([] : Doc)
    let upd := MVal.vdoc [("$set", MVal.vdoc pairs)]
    let r := updateManyDocs (store.get ctn) f upd
    let amount2 := if safeN then r.2 else amount
    return (amount2, store.set ctn r.1, [DbCall.updateMany ctn f upd])

/-- The nested `remove_from_list` of `delete`: pull each deleted
identifier out of the list field of every referencing document. -/
def removeFromList (fl : RefField) (deleted : List MVal)
    (st : Store × List DbCall) : Store × List DbCall :=
  deleted.foldl (fun st delv =>
    let modify := MVal.vdoc [(fl.name, delv)]
    let upd := MVal.vdoc [("$pull", modify)]
    let rr := updateManyDocs (st.1.get fl.tablename) modify upd
    (st.1.set fl.tablename rr.1,
     st.2 ++ [DbCall.updateMany fl.tablename modify upd])) st

/-- `MongoDBAdapter.delete`: snapshot the matching identifiers, delete the
primary documents, then apply each inbound reference's on-delete policy
(CASCADE on a list reference first removes records whose list is exactly
the one deleted id, then pulls ids; CASCADE on a singular reference
recursively deletes through `db(...).delete()`; SET NULL updates through
`db(...).update(...)`).  The recursion of the cascade is bounded by
explicit fuel. -/
def mdelete (serverGe26 defaultSafe : Bool) (db : DbSchema) :
    Nat → Store → String → MExp → Except String (Nat × Store × List DbCall)
  | 0, _, _, _ => .error "RecursionError: maximum recursion depth exceeded"
  | fuel + 1, store, tablename, query => do
    if !query.isQuery then throw "RuntimeError: query type is not supported"
    -- `_expand_query(query, safe)` passes `safe` positionally as the
    -- tablename; with the default `safe=None` the table comes off the query
    let (ctn, f) ← expand_query query none
    let deleted ← (findDocs (store.get ctn) (some f)).mapM (fun d =>
        match Doc.lookup d "_id" with
        | some v => Except.ok v
        | none => Except.error "KeyError: _id")
    let table := db.get tablename
    let cascade := table.referenced_by.filter (fun fl =>
        fl.ftype == "reference " ++ tablename && fl.ondelete == "CASCADE")
    let set_null := table.referenced_by.filter (fun fl =>
        fl.ftype == "reference " ++ tablename && fl.ondelete == "SET NULL")
    let cascade_list := table.referenced_by_list.filter (fun fl =>
        fl.ftype == "list:reference " ++ tablename && fl.ondelete == "CASCADE")
    let set_null_list := table.referenced_by_list.filter (fun fl =>
        fl.ftype == "list:reference " ++ tablename && fl.ondelete == "SET NULL")
    -- perform delete (acknowledged under the default write concern)
    let r := deleteManyDocs (store.get ctn) f
    let store1 := store.set ctn r.1
    let amount := r.2
    let calls0 := [DbCall.deleteMany ctn f]
    -- clean up any references
    if amount != 0 && !deleted.isEmpty then do
      let st2 := cascade_list.foldl (fun st fl =>
          let st' := deleted.foldl (fun st delv =>
              let modify := MVal.vdoc [(fl.name, .varr [delv])]
              let rr := deleteManyDocs (st.1.get fl.tablename) modify
              (st.1.set fl.tablename rr.1,
               st.2 ++ [DbCall.deleteMany fl.tablename modify])) st
          removeFromList fl deleted st') (store1, calls0)
      let st3 := set_null_list.foldl (fun st fl => removeFromList fl deleted st) st2
      let st4 ← cascade.foldlM (fun st fl => do
          let q := MExp.node .opBELONGS none
            (.field fl.tablename fl.name fl.ftype) (some (.lit (.varr deleted)))
          let rr ← mdelete serverGe26 defaultSafe db fuel st.1 fl.tablename q
          pure (rr.2.1, st.2 ++ rr.2.2)) st3
      let st5 ← set_null.foldlM (fun st fl => do
          let q := MExp.node .opBELONGS none
            (.field fl.tablename fl.name fl.ftype) (some (.lit (.varr deleted)))
          let rr ← mupdate serverGe26 defaultSafe st.1 fl.tablename q []
            [((fl.name, fl.ftype), .uval .vnull)] none
          pure (rr.2.1, st.2 ++ rr.2.2)) st4
      return (amount, st5.1, st5.2)
    else
      return (amount, store1, calls0)

/-- Split a character list at a separator. -/
def splitChars (sep : Char) : List Char → List (List Char)
  | [] => [[]]
  | c :: rest =>
    match splitChars sep rest with
    | [] => [[c]]
    | cur :: done =>
      if c == sep then [] :: cur :: done else (c :: cur) :: done

/-- `orderby` parsing: split the compiled field list on commas; a leading
`-` marks a descending key. -/
def mongosortOf (s : String) : List (String × Int) :=
  (splitChars ',' s.data).map (fun f =>
    match f with
    | '-' :: rest => (String.mk rest, -1)
    | _ => (String.mk f, 1))

/-- The select attributes this model observes. -/
structure SelectAttrs where
  orderby : Option MExp
  limitby : Option (Int × Int)

/-- The outcome of a select: result rows in requested-column order, the
column keys used, and the issued store calls. -/
structure SelectResult where
  rows : List (List MVal)
  colnames : List String
  calls : List DbCall

/-- `isinstance(f, Field)`. -/
def MExp.isFieldE : MExp → Bool
  | .field _ _ _ => true
  | _ => false

/-- `isinstance(f, Expression)` for non-`Field` nodes. -/
def MExp.isNodeE : MExp → Bool
  | .node _ _ _ _ => true
  | _ => false

/-- `field.name` (an `AttributeError` on a plain value). -/
def fieldName : MExp → Except String String
  | .field _ n _ => .ok n
  | _ => .error "AttributeError: no attribute name"

/-- Table resolution when the query is not a `Query`: from the first
requested field. -/
def tablenameFromFields : List MExp → Except String String
  | [] => .error ("SyntaxError: The table name could not be found in the "
      ++ "query nor from the select statement.")
  | f0 :: _ =>
    match f0 with
    | .node _ _ _ _ => get_table f0
    | .field t _ _ => .ok t
    | .lit _ => .error "AttributeError: no tablename"

/-- `MongoDBAdapter.select`.  If any requested field is a non-`Field`
expression, a match→group aggregation pipeline runs, suppressing `_id`
and naming each expression column by the rendered text of its compiled
fragment (`field.name = str(p)`; re-rendered here when building the
column list, which is the same deterministic value); otherwise a direct
filtered find with a field projection and the parsed skip/limit runs.
Result rows are reassembled in requested-field order with the reserved
`_id` key standing in for `id`; missing keys yield null.  The external
row processor (`self.parse`) is outside this source; rows are returned
as assembled. -/
def mselect (db : DbSchema) (store : Store) (query : Option MExp)
    (fields : List MExp) (attrs : SelectAttrs) : Except String SelectResult := do
  let limitby_skip : Int := match attrs.limitby with
    | some ab => ab.1
    | none => 0
  let limitby_limit : Int := match attrs.limitby with
    | some ab => ab.2 - 1
    | none => 0
  let _mongosort ← (match attrs.orderby with
    | none => pure ([] : List (String × Int))
    | some ob => do
      let s ← expandM false ob none
      match s with
      | .vstr str => pure (mongosortOf str)
      | _ => .error "TypeError: orderby must compile to a field list")
  let tablename ← (match query with
    | some q => if q.isQuery then get_table q else tablenameFromFields fields
    | none => tablenameFromFields fields)
  let mongoqry : Option MVal ← (match query with
    | none => pure none
    | some q => do
      let f ← expandM false q none
      pure (some f))
  if fields.any (fun f => f.isNodeE) then do
    let pairs ← fields.foldlM (fun acc f =>
        if f.isFieldE then pure acc
        else do
          let p ← expandM true f none
          match f with
          | .lit _ => throw "AttributeError: cannot set attribute name"
          | _ => pure (acc ++ [(pyStrOf p, p)])) ([] : Doc)
    let projection := pairs ++ [("_id", MVal.vnull)]
    let outdocs := groupDocs (findDocs (store.get tablename) mongoqry) projection
    let pipeline := (match mongoqry with
      | some f => [MVal.vdoc [("$match", f)]]
      | none => []) ++ [MVal.vdoc [("$group", .vdoc projection)]]
    let colnames ← fields.mapM (fun f =>
        match f with
        | .field _ n _ => pure (if n == "id" || n == "_id" then "_id" else n)
        | _ => do
          let p ← expandM true f none
          pure (pyStrOf p))
    let rows := outdocs.map (fun record =>
        colnames.map (fun cn =>
          match Doc.lookup record cn with
          | some v => v
          | none => MVal.vnull))
    let rows := if rows.isEmpty then [[MVal.vnull]] else rows
    return ⟨rows, colnames, [DbCall.aggregateCall tablename pipeline]⟩
  else do
    let fields2 := if fields.isEmpty then
        (db.get tablename).fields.map (fun ft => MExp.field tablename ft.1 ft.2)
      else fields
    let projKeys ← fields2.mapM fieldName
    let docs := (applySkipLimit (findDocs (store.get tablename) mongoqry)
        limitby_skip limitby_limit).map (fun d => projectFields d projKeys)
    let colnames ← fields2.mapM (fun f =>
        match f with
        | .field _ n _ => pure (if n == "id" || n == "_id" then "_id" else n)
        | _ => .error "AttributeError: no attribute name")
    let rows := docs.map (fun record =>
        colnames.map (fun cn =>
          match Doc.lookup record cn with
          | some v => v
          | none => MVal.vnull))
    return ⟨rows, colnames,
      [DbCall.findCall tablename mongoqry projKeys limitby_skip limitby_limit]⟩

/-! ## Query constructors (pydal operator sugar) -/

/-- `~q` — `Query(db, NOT, q)`. -/
def qNOT (a : MExp) : MExp := .node .opNOT none a none

/-- `a & b` — `Query(db, AND, a, b)`. -/
def qAND (a b : MExp) : MExp := .node .opAND none a (some b)

/-- `a | b` — `Query(db, OR, a, b)`. -/
def qOR (a b : MExp) : MExp := .node .opOR none a (some b)

/-- `f == v` — `Query(db, EQ, f, v)`. -/
def qEQ (f : MExp) (v : MVal) : MExp := .node .opEQ none f (some (.lit v))

/-- Is this operand an id- or reference-typed `Field` (the trigger of the
Query-node rewrite)? -/
def qualField : MExp → Bool
  | .field _ _ ftype => ftype == "id" || strContains ftype "reference"
  | _ => false

/-- A compiled value that is neither a list nor a document. -/
def mvalScalar : MVal → Bool
  | .varr _ => false
  | .vdoc _ => false
  | _ => true

/-! ## The cascade-delete scenario (schema and document-shape predicates) -/

/-- A three-table schema: `ta` is referenced by `tb` through the singular
field `refa` (`reference ta`, on-delete CASCADE) and by `tc` through the
list field `reflist` (`list:reference ta`, on-delete CASCADE). -/
def dbCascade : DbSchema := [
  ⟨"ta", [("x", "string")],
    [⟨"tb", "refa", "reference ta", "CASCADE"⟩],
    [⟨"tc", "reflist", "list:reference ta", "CASCADE"⟩]⟩,
  ⟨"tb", [("refa", "reference ta")], [], []⟩,
  ⟨"tc", [("reflist", "list:reference ta")], [], []⟩]

/-- Is this value a native identifier? -/
def mvalIsOid : MVal → Bool
  | .oid _ => true
  | _ => false

/-- Does the document carry a native identifier under `_id`? -/
def docIdOid (d : Doc) : Bool :=
  match Doc.lookup d "_id" with
  | some (.oid _) => true
  | _ => false

/-- The document's `_id` value. -/
def docId (d : Doc) : MVal :=
  match Doc.lookup d "_id" with
  | some v => v
  | none => .vnull

/-- The reference field is a native identifier or absent. -/
def refOk (name : String) (d : Doc) : Bool :=
  match Doc.lookup d name with
  | some (.oid _) => true
  | none => true
  | _ => false

/-- The reference field's value (`null` when absent). -/
def refVal (name : String) (d : Doc) : MVal :=
  match Doc.lookup d name with
  | some v => v
  | none => .vnull

/-- The list-reference field is an array of native identifiers or absent. -/
def listRefOk (name : String) (d : Doc) : Bool :=
  match Doc.lookup d name with
  | some (.varr xs) => xs.all (fun x => mvalIsOid x)
  | none => true
  | _ => false

/-- The list-reference field holds exactly one element and that element is
among the deleted identifiers (such referencing records are deleted
entirely by the list-CASCADE cleanup). -/
def soleListRef (name : String) (deleted : List MVal) (d : Doc) : Bool :=
  match Doc.lookup d name with
  | some (.varr [x]) => deleted.contains x
  | _ => false

/-- Pull one identifier from the list-reference field. -/
def pullOne (name : String) (delv : MVal) (d : Doc) : Doc :=
  match Doc.lookup d name with
  | some (.varr xs) =>
    Doc.set d name (.varr (xs.filter (fun x => !(x == delv))))
  | _ => d

/-- Pull every deleted identifier from the list-reference field. -/
def pullListRef (name : String) (deleted : List MVal) (d : Doc) : Doc :=
  match Doc.lookup d name with
  | some (.varr xs) =>
    Doc.set d name (.varr (xs.filter (fun x => !(deleted.contains x))))
  | _ => d

/-! ## Theorems -/

theorem except_bind_ok {α β : Type} (a : α) (f : α → Except String β) :
    (Except.ok a : Except String α) >>= f = f a := rfl

theorem except_bind_err {α β : Type} (e : String) (f : α → Except String β) :
    (Except.error e : Except String α) >>= f = Except.error e := rfl

theorem except_map_ok {α β : Type} (a : α) (f : α → β) :
    f <$> (Except.ok a : Except String α) = Except.ok (f a) := rfl

theorem except_map_err {α β : Type} (e : String) (f : α → β) :
    f <$> (Except.error e : Except String α) = Except.error e := rfl

theorem except_pure {α : Type} (a : α) :
    (pure a : Except String α) = Except.ok a := rfl

theorem except_toOption_ok {α : Type} (a : α) :
    (Except.ok a : Except String α).toOption = some a := rfl

theorem except_toOption_err {α : Type} (e : String) :
    (Except.error e : Except String α).toOption = none := rfl

/-- The fuel of `hexDigitsAux` is irrelevant once it exceeds `n`. -/
theorem hexDigitsAux_eq : ∀ f g n, n < f → n < g →
    hexDigitsAux f n = hexDigitsAux g n := by
  intro f
  induction f with
  | zero => intro g n h; omega
  | succ f ih =>
    intro g n hf hg
    cases g with
    | zero => omega
    | succ g =>
      simp only [hexDigitsAux]
      by_cases h16 : n < 16
      · simp [h16]
      · have hdiv : n / 16 < n := Nat.div_lt_self (by omega) (by norm_num)
        simp only [h16, if_false]
        rw [ih g (n / 16) (by omega) (by omega)]

theorem hexDigits_of_lt {n : Nat} (h : n < 16) : hexDigits n = [n] := by
  simp [hexDigits, hexDigitsAux, h]

theorem hexDigits_of_ge {n : Nat} (h : 16 ≤ n) :
    hexDigits n = hexDigits (n / 16) ++ [n % 16] := by
  have hdiv : n / 16 < n := Nat.div_lt_self (by omega) (by norm_num)
  show hexDigitsAux (n + 1) n = hexDigitsAux (n / 16 + 1) (n / 16) ++ [n % 16]
  rw [show hexDigitsAux (n + 1) n =
    if n < 16 then [n] else hexDigitsAux n (n / 16) ++ [n % 16] from rfl]
  rw [if_neg (by omega)]
  rw [hexDigitsAux_eq n (n / 16 + 1) (n / 16) (by omega) (by omega)]

/-- Value of a big-endian base-16 digit list. -/
def hexVal (ds : List Nat) : Nat := ds.foldl (fun a d => 16 * a + d) 0

theorem hexVal_append_one (ds : List Nat) (d : Nat) :
    hexVal (ds ++ [d]) = 16 * hexVal ds + d := by
  simp [hexVal, List.foldl_append]

/-- `hex` renders exactly the base-16 digits of `n`. -/
theorem hexVal_hexDigits : ∀ n, hexVal (hexDigits n) = n := by
  intro n
  induction n using Nat.strong_induction_on with
  | _ n ih =>
    by_cases h : n < 16
    · simp [hexDigits_of_lt h, hexVal]
    · have hdiv : n / 16 < n := Nat.div_lt_self (by omega) (by norm_num)
      rw [hexDigits_of_ge (by omega), hexVal_append_one, ih _ hdiv]
      omega

theorem hexDigits_lt : ∀ n d, d ∈ hexDigits n → d < 16 := by
  intro n
  induction n using Nat.strong_induction_on with
  | _ n ih =>
    intro d hd
    by_cases h : n < 16
    · rw [hexDigits_of_lt h] at hd
      simp at hd; omega
    · have hdiv : n / 16 < n := Nat.div_lt_self (by omega) (by norm_num)
      rw [hexDigits_of_ge (by omega)] at hd
      rcases List.mem_append.mp hd with h1 | h1
      · exact ih _ hdiv _ h1
      · simp at h1; omega

theorem hexDigits_ne_nil (n : Nat) : hexDigits n ≠ [] := by
  by_cases h : n < 16
  · simp [hexDigits_of_lt h]
  · simp [hexDigits_of_ge (by omega : 16 ≤ n)]

/-- A number below `16 ^ k` has at most `k` hex digits (`k ≥ 1`). -/
theorem hexDigits_length_le : ∀ k n, 1 ≤ k → n < 16 ^ k →
    (hexDigits n).length ≤ k := by
  intro k
  induction k with
  | zero => intro n h; omega
  | succ k ih =>
    intro n _ hn
    by_cases h : n < 16
    · simp [hexDigits_of_lt h]
    · have hk : 1 ≤ k := by
        by_contra hk
        have : k = 0 := by omega
        subst this; simp at hn; omega
      have hdivlt : n / 16 < 16 ^ k := by
        rw [Nat.div_lt_iff_lt_mul (by norm_num)]
        calc n < 16 ^ (k + 1) := hn
        _ = 16 ^ k * 16 := by ring
      have := ih (n / 16) hk hdivlt
      rw [hexDigits_of_ge (by omega)]
      simp [List.length_append]
      omega

theorem hexCharVal_digitChar {d : Nat} (h : d < 16) :
    hexCharVal (Nat.digitChar d) = some d := by
  interval_cases d <;> decide

theorem isHexChar_digitChar {d : Nat} (h : d < 16) :
    isHexChar (Nat.digitChar d) = true := by
  interval_cases d <;> decide

theorem int16Go_digits : ∀ (ds : List Nat) (acc : Nat), (∀ d ∈ ds, d < 16) →
    int16Go acc (ds.map Nat.digitChar) =
      some (ds.foldl (fun a d => 16 * a + d) acc) := by
  intro ds
  induction ds with
  | nil => intro acc _; rfl
  | cons d ds ih =>
    intro acc hall
    simp only [List.map_cons, int16Go, hexCharVal_digitChar (hall d (by simp)),
      List.foldl_cons]
    exact ih _ (fun x hx => hall x (by simp [hx]))

theorem int16Go_zeros : ∀ k rest, int16Go 0 (List.replicate k '0' ++ rest) =
    int16Go 0 rest := by
  intro k
  induction k with
  | zero => intro rest; rfl
  | succ k ih =>
    intro rest
    have h0 : hexCharVal '0' = some 0 := by decide
    simp only [List.replicate_succ, List.cons_append, int16Go, h0]
    simpa using ih rest

theorem int16Chars_cons (c : Char) (cs : List Char) :
    int16Chars (c :: cs) = int16Go 0 (c :: cs) := rfl

/-- C2 (amended): for `0 ≤ n < 16^24`, converting `n` to a native identifier
left-pads its hex form to 24 digits, and reinterpreting the identifier's hex
text in base 16 yields `n` back.  (The conversion never truncates; `n ≥
16^24` is rejected, see the counterexample.) -/
theorem objectid_roundtrip (n : Nat) (h : n < 16 ^ 24) :
    object_id defaultRandHex (.vint (n : Int)) >>= parse_id =
      .ok (.vint (n : Int)) := by
  have harg : (if mvalFalsy (.vint (n : Int)) then MVal.vint 0 else .vint (n : Int))
      = .vint (n : Int) := by
    by_cases hn : (n : Int) = 0
    · simp [mvalFalsy, hn]
    · simp [mvalFalsy, hn]
  have hneg : ¬ ((n : Int) < 0) := by omega
  have hlen : (hexChars n).length ≤ 24 := by
    simp only [hexChars, List.length_map]
    exact hexDigits_length_le 24 n (by norm_num) h
  have hhc : hexCharsOfInt (n : Int) = hexChars n := by
    simp [hexCharsOfInt, hneg]
  have hfull : (zfillChars (hexChars n) 24).length = 24 := by
    simp only [zfillChars, List.length_append, List.length_replicate]
    omega
  have hallhex : (zfillChars (hexChars n) 24).all isHexChar = true := by
    simp only [zfillChars, List.all_append, Bool.and_eq_true, List.all_eq_true]
    constructor
    · intro c hc
      have : c = '0' := List.eq_of_mem_replicate hc
      subst this; decide
    · intro c hc
      simp only [hexChars, List.mem_map] at hc
      obtain ⟨d, hd, rfl⟩ := hc
      exact isHexChar_digitChar (hexDigits_lt n d hd)
  have hoid : object_id defaultRandHex (.vint (n : Int)) =
      .ok (.oid (String.mk (zfillChars (hexChars n) 24))) := by
    simp only [object_id]
    rw [harg]
    show objectIdOfHex (zfillChars (hexCharsOfInt (n : Int)) 24) = _
    rw [hhc]
    simp only [objectIdOfHex, hfull, hallhex]
    simp
  rw [hoid]
  show parse_id (.oid (String.mk (zfillChars (hexChars n) 24))) = _
  have hparse : int16Chars (zfillChars (hexChars n) 24) = some n := by
    have hne : zfillChars (hexChars n) 24 ≠ [] := by
      intro hnil
      rw [hnil] at hfull
      simp at hfull
    obtain ⟨c, cs, hccs⟩ := List.exists_cons_of_ne_nil hne
    rw [hccs, int16Chars_cons, ← hccs]
    unfold zfillChars
    rw [int16Go_zeros]
    unfold hexChars
    rw [int16Go_digits _ _ (hexDigits_lt n)]
    exact congrArg some (hexVal_hexDigits n)
  show (match int16Chars (zfillChars (hexChars n) 24) with
    | some m => Except.ok (MVal.vint (m : Int))
    | none => Except.error "ValueError: invalid hex in ObjectId text") = _
  rw [hparse]

/-- Witness for C2 (amended) at a concrete input. -/
theorem objectid_roundtrip_witness :
    object_id defaultRandHex (.vint ((5 : Nat) : Int)) >>= parse_id =
      .ok (.vint ((5 : Nat) : Int)) :=
  objectid_roundtrip 5 (by norm_num)

/-- C2 counterexample: at `n = 16^24` the round-trip fails — `zfill` only
pads, never truncates, so the 25-digit hex form is rejected by the
`ObjectId` constructor. -/
theorem objectid_roundtrip_fails_at_16_pow_24 :
    object_id defaultRandHex (.vint ((16 : Int) ^ 24)) >>= parse_id =
        .error "InvalidId: not a 12-byte input or a 24-character hex string" ∧
      object_id defaultRandHex (.vint ((16 : Int) ^ 24)) >>= parse_id ≠
        .ok (.vint ((16 : Int) ^ 24)) := by
  constructor
  · rfl
  · intro hcontra
    rw [show object_id defaultRandHex (.vint ((16 : Int) ^ 24)) >>= parse_id =
      .error "InvalidId: not a 12-byte input or a 24-character hex string" from rfl]
      at hcontra
    exact Except.noConfusion hcontra

/-- C7: the blob round-trip restores the original representation class —
a byte-array is tagged as raw bytes and decodes back byte-equal; a
UTF-8-encodable string is returned unchanged by `encode`; a string that
fails UTF-8 encoding is reproduced exactly by `decode ∘ encode`. -/
theorem mongoblob_roundtrip :
    (∀ b : List Nat, MongoBlob (.pbytearray b) = .pbinary MONGO_BLOB_BYTES b ∧
      MongoBlob.decode (MongoBlob (.pbytearray b)) = .pbytearray b) ∧
    (∀ d : List Nat, utf8Encodable d = true → MongoBlob (.pstr d) = .pstr d) ∧
    (∀ d : List Nat, utf8Encodable d = false →
      MongoBlob.decode (MongoBlob (.pstr d)) = .pstr d) := by
  refine ⟨fun b => ⟨rfl, rfl⟩, fun d hd => ?_, fun d hd => ?_⟩
  · simp [MongoBlob, hd]
  · simp [MongoBlob, MongoBlob.decode, hd, MONGO_BLOB_NON_UTF8_STR,
      MONGO_BLOB_BYTES, USER_DEFINED_SUBTYPE]

/-- Witness for C7 at concrete inputs. -/
theorem mongoblob_roundtrip_witness :
    (MongoBlob (.pbytearray [0, 200]) = .pbinary MONGO_BLOB_BYTES [0, 200] ∧
      MongoBlob.decode (MongoBlob (.pbytearray [0, 200])) = .pbytearray [0, 200]) ∧
    MongoBlob (.pstr [104, 105]) = .pstr [104, 105] ∧
    MongoBlob.decode (MongoBlob (.pstr [200, 1])) = .pstr [200, 1] :=
  ⟨mongoblob_roundtrip.1 [0, 200],
   mongoblob_roundtrip.2.1 [104, 105] (by decide),
   mongoblob_roundtrip.2.2 [200, 1] (by decide)⟩

theorem represent_none (v : MVal) : represent v none = .ok v := rfl

theorem mapM_loop_pure : ∀ (xs acc : List MVal),
    List.mapM.loop (fun x : MVal => (Except.ok x : Except String MVal)) xs acc =
      .ok (acc.reverse ++ xs) := by
  intro xs
  induction xs with
  | nil => intro acc; simp [List.mapM.loop, except_pure]
  | cons x xs ih =>
    intro acc
    simp [List.mapM.loop, except_bind_ok, ih]

theorem mapM_represent_none (xs : List MVal) :
    xs.mapM (fun x => represent x none) = .ok xs := by
  simp only [represent_none, List.mapM, mapM_loop_pure, List.reverse_nil,
    List.nil_append]

theorem expandM_lit_none (agg : Bool) (v : MVal) :
    expandM agg (.lit v) none = .ok v := by
  cases v <;>
    simp [expandM, represent_none, List.mapM, mapM_loop_pure, except_bind_ok,
      except_pure]

theorem expandM_field (agg : Bool) (t n ft : String) :
    expandM agg (.field t n ft) none =
      .ok (.vstr (if ft == "id" then "_id" else if agg then "$" ++ n else n)) := by
  by_cases h : (ft == "id") = true <;> cases agg <;> simp [expandM, h, except_pure]

theorem expandM_qNOT (agg : Bool) (x : MExp) (h : qualField x = false) :
    expandM agg (qNOT x) none = mongoNOT agg x := by
  cases x with
  | field t n ft =>
    simp only [qualField] at h
    simp [expandM, qNOT, mongoOp1, h]
  | lit v => simp [expandM, qNOT, mongoOp1]
  | node op ety f s => simp [expandM, qNOT, mongoOp1]

theorem expandM_qNOT_qual (agg : Bool) (x : MExp) (h : qualField x = true) :
    expandM agg (qNOT x) none = .error "TypeError: NOT takes one operand" := by
  cases x with
  | field t n ft =>
    simp only [qualField] at h
    have hc : coerceSecondVal none = .ok (.oid "000000000000000000000000") := rfl
    simp [expandM, qNOT, h, hc, except_bind_ok, mongoOp2, MOp.isQuery]
  | lit v => simp [qualField] at h
  | node op ety f s => simp [qualField] at h

theorem mongoNOT_field (agg : Bool) (t n ft : String) :
    mongoNOT agg (.field t n ft) = .error "TypeError: fragment is not a mapping" := by
  rw [mongoNOT]
  rw [expandM_field]
  simp [except_bind_ok]

theorem qualField_shape (x : MExp) (h : qualField x = true) :
    ∃ t n ft, x = .field t n ft ∧ (ft == "id" || strContains ft "reference") = true := by
  cases x with
  | field t n ft => exact ⟨t, n, ft, rfl, by simpa [qualField] using h⟩
  | lit v => simp [qualField] at h
  | node op ety f s => simp [qualField] at h

theorem expandM_qAND (agg : Bool) (a b : MExp) (h : qualField a = false) :
    expandM agg (qAND a b) none =
      (expandM agg a none) >>= fun va =>
        (expandM agg b none) >>= fun vb =>
          .ok (.vdoc [("$and", .varr [va, vb])]) := by
  cases a with
  | field t n ft =>
    simp only [qualField] at h
    simp [expandM, qAND, mongoOp2, h, except_pure]
  | lit v => simp [expandM, qAND, mongoOp2, except_pure]
  | node op ety f s => simp [expandM, qAND, mongoOp2, except_pure]

theorem expandM_qOR (agg : Bool) (a b : MExp) (h : qualField a = false) :
    expandM agg (qOR a b) none =
      (expandM agg a none) >>= fun va =>
        (expandM agg b none) >>= fun vb =>
          .ok (.vdoc [("$or", .varr [va, vb])]) := by
  cases a with
  | field t n ft =>
    simp only [qualField] at h
    simp [expandM, qOR, mongoOp2, h, except_pure]
  | lit v => simp [expandM, qOR, mongoOp2, except_pure]
  | node op ety f s => simp [expandM, qOR, mongoOp2, except_pure]

theorem mongoNOT_qAND (agg : Bool) (a b : MExp) (ha : qualField a = false) :
    mongoNOT agg (qAND a b) =
      (expandM agg a none) >>= fun _ =>
        (expandM agg b none) >>= fun _ =>
          (mongoNOT agg a) >>= fun na =>
            (mongoNOT agg b) >>= fun nb =>
              .ok (.vdoc [("$or", .varr [na, nb])]) := by
  rw [mongoNOT, expandM_qAND agg a b ha]
  cases hEa : expandM agg a none with
  | error e => simp [except_bind_err, except_toOption_ok, except_toOption_err]
  | ok va =>
    cases hEb : expandM agg b none with
    | error e => simp [except_bind_ok, except_bind_err, except_toOption_ok, except_toOption_err]
    | ok vb => simp +decide [except_bind_ok, qAND, except_pure]

theorem mongoNOT_qOR (agg : Bool) (a b : MExp) (ha : qualField a = false) :
    mongoNOT agg (qOR a b) =
      (expandM agg a none) >>= fun _ =>
        (expandM agg b none) >>= fun _ =>
          (mongoNOT agg a) >>= fun na =>
            (mongoNOT agg b) >>= fun nb =>
              .ok (.vdoc [("$and", .varr [na, nb])]) := by
  rw [mongoNOT, expandM_qOR agg a b ha]
  cases hEa : expandM agg a none with
  | error e => simp [except_bind_err, except_toOption_ok, except_toOption_err]
  | ok va =>
    cases hEb : expandM agg b none with
    | error e => simp [except_bind_ok, except_bind_err, except_toOption_ok, except_toOption_err]
    | ok vb => simp +decide [except_bind_ok, qOR, except_pure]

theorem mongoNOT_qAND_qual (agg : Bool) (a b : MExp) (ha : qualField a = true) :
    (mongoNOT agg (qAND a b)).toOption = none := by
  obtain ⟨t, n, ft, rfl, hft⟩ := qualField_shape a ha
  rw [mongoNOT]
  cases hc : coerceSecondVal (some b) with
  | error e => simp [expandM, qAND, hft, MOp.isQuery, hc, except_bind_err, except_toOption_ok, except_toOption_err]
  | ok cv =>
    simp [expandM, qAND, hft, MOp.isQuery, hc, except_bind_ok, mongoOp2,
      expandM_field, expandM_lit_none, except_pure, mongoNOT_field, except_bind_err,
      except_toOption_ok, except_toOption_err]

theorem mongoNOT_qOR_qual (agg : Bool) (a b : MExp) (ha : qualField a = true) :
    (mongoNOT agg (qOR a b)).toOption = none := by
  obtain ⟨t, n, ft, rfl, hft⟩ := qualField_shape a ha
  rw [mongoNOT]
  cases hc : coerceSecondVal (some b) with
  | error e => simp [expandM, qOR, hft, MOp.isQuery, hc, except_bind_err, except_toOption_ok, except_toOption_err]
  | ok cv =>
    simp [expandM, qOR, hft, MOp.isQuery, hc, except_bind_ok, mongoOp2,
      expandM_field, expandM_lit_none, except_pure, mongoNOT_field, except_bind_err,
      except_toOption_ok, except_toOption_err]

theorem mongoNOT_of_expand_error (agg : Bool) (x : MExp) (e : String)
    (h : expandM agg x none = .error e) : mongoNOT agg x = .error e := by
  rw [mongoNOT, h]
  rfl

theorem demorgan_and (agg : Bool) (a b : MExp) :
    (expandM agg (qNOT (qAND a b)) none).toOption =
      (expandM agg (qOR (qNOT a) (qNOT b)) none).toOption := by
  have hA : qualField (qAND a b) = false := rfl
  have hO : qualField (qNOT a) = false := rfl
  rw [expandM_qNOT agg _ hA, expandM_qOR agg (qNOT a) (qNOT b) hO]
  by_cases ha : qualField a = true
  · rw [mongoNOT_qAND_qual agg a b ha, expandM_qNOT_qual agg a ha]
    simp [except_bind_err, except_toOption_ok, except_toOption_err]
  · replace ha : qualField a = false := by simpa using ha
    rw [mongoNOT_qAND agg a b ha, expandM_qNOT agg a ha]
    by_cases hb : qualField b = true
    · rw [expandM_qNOT_qual agg b hb]
      obtain ⟨t, n, ft, rfl, hft⟩ := qualField_shape b hb
      rw [mongoNOT_field, expandM_field]
      cases hEa : expandM agg a none with
      | error e =>
        rw [mongoNOT_of_expand_error agg a e hEa]
        simp [except_bind_err, except_toOption_ok, except_toOption_err]
      | ok va =>
        cases hNa : mongoNOT agg a <;>
          simp [except_bind_ok, except_bind_err, hNa, except_toOption_ok, except_toOption_err]
    · replace hb : qualField b = false := by simpa using hb
      rw [expandM_qNOT agg b hb]
      cases hEa : expandM agg a none with
      | error e =>
        rw [mongoNOT_of_expand_error agg a e hEa]
        simp [except_bind_err, except_toOption_ok, except_toOption_err]
      | ok va =>
        cases hNa : mongoNOT agg a with
        | error e =>
          cases hEb : expandM agg b none <;>
            simp [except_bind_ok, except_bind_err, hNa, except_toOption_ok, except_toOption_err]
        | ok na =>
          cases hEb : expandM agg b none with
          | error e =>
            rw [mongoNOT_of_expand_error agg b e hEb]
            simp [except_bind_ok, except_bind_err, except_toOption_ok, except_toOption_err]
          | ok vb =>
            simp [except_bind_ok, hNa, except_toOption_ok, except_toOption_err]

theorem demorgan_or (agg : Bool) (a b : MExp) :
    (expandM agg (qNOT (qOR a b)) none).toOption =
      (expandM agg (qAND (qNOT a) (qNOT b)) none).toOption := by
  have hA : qualField (qOR a b) = false := rfl
  have hO : qualField (qNOT a) = false := rfl
  rw [expandM_qNOT agg _ hA, expandM_qAND agg (qNOT a) (qNOT b) hO]
  by_cases ha : qualField a = true
  · rw [mongoNOT_qOR_qual agg a b ha, expandM_qNOT_qual agg a ha]
    simp [except_bind_err, except_toOption_ok, except_toOption_err]
  · replace ha : qualField a = false := by simpa using ha
    rw [mongoNOT_qOR agg a b ha, expandM_qNOT agg a ha]
    by_cases hb : qualField b = true
    · rw [expandM_qNOT_qual agg b hb]
      obtain ⟨t, n, ft, rfl, hft⟩ := qualField_shape b hb
      rw [mongoNOT_field, expandM_field]
      cases hEa : expandM agg a none with
      | error e =>
        rw [mongoNOT_of_expand_error agg a e hEa]
        simp [except_bind_err, except_toOption_ok, except_toOption_err]
      | ok va =>
        cases hNa : mongoNOT agg a <;>
          simp [except_bind_ok, except_bind_err, hNa, except_toOption_ok, except_toOption_err]
    · replace hb : qualField b = false := by simpa using hb
      rw [expandM_qNOT agg b hb]
      cases hEa : expandM agg a none with
      | error e =>
        rw [mongoNOT_of_expand_error agg a e hEa]
        simp [except_bind_err, except_toOption_ok, except_toOption_err]
      | ok va =>
        cases hNa : mongoNOT agg a with
        | error e =>
          cases hEb : expandM agg b none <;>
            simp [except_bind_ok, except_bind_err, hNa, except_toOption_ok, except_toOption_err]
        | ok na =>
          cases hEb : expandM agg b none with
          | error e =>
            rw [mongoNOT_of_expand_error agg b e hEb]
            simp [except_bind_ok, except_bind_err, except_toOption_ok, except_toOption_err]
          | ok vb =>
            simp [except_bind_ok, hNa, except_toOption_ok, except_toOption_err]

theorem not_not_eq_collapse (agg : Bool) (f : MExp) (v : MVal) (k : String)
    (body : MVal) (h : expandM agg (qEQ f v) none = .ok (.vdoc [(k, body)]))
    (hb : mvalScalar body = true) :
    expandM agg (qNOT (qNOT (qEQ f v))) none = expandM agg (qEQ f v) none := by
  have h2 : qualField (qEQ f v) = false := rfl
  have hInner : expandM agg (qNOT (qEQ f v)) none =
      .ok (.vdoc [(k, .vdoc [("$ne", body)])]) := by
    rw [expandM_qNOT agg _ h2, mongoNOT, h]
    cases body <;> simp [mvalScalar] at hb ⊢ <;> simp [except_bind_ok, except_pure]
  rw [expandM_qNOT agg _ (rfl : qualField (qNOT (qEQ f v)) = false), mongoNOT,
    hInner, h]
  simp [except_bind_ok, except_pure]

/-- C3 (amended): `NOT(AND(a,b))` compiles structurally equal to
`OR(NOT(a), NOT(b))` and `NOT(OR(a,b))` to `AND(NOT(a), NOT(b))`, for all
operand trees (including failing ones: both sides fail together);
`NOT(NOT(EQ(f,v)))` compiles equal to `EQ(f,v)` whenever the compiled
right-hand side of the equality is a scalar (not a list and not an
operator document) — for a list-valued right-hand side the double
negation raises instead of compiling (see the counterexample). -/
theorem not_de_morgan_and_double_negation (agg : Bool) :
    (∀ a b : MExp, (expandM agg (qNOT (qAND a b)) none).toOption =
      (expandM agg (qOR (qNOT a) (qNOT b)) none).toOption) ∧
    (∀ a b : MExp, (expandM agg (qNOT (qOR a b)) none).toOption =
      (expandM agg (qAND (qNOT a) (qNOT b)) none).toOption) ∧
    (∀ (f : MExp) (v : MVal) (k : String) (body : MVal),
      expandM agg (qEQ f v) none = .ok (.vdoc [(k, body)]) →
      mvalScalar body = true →
      expandM agg (qNOT (qNOT (qEQ f v))) none = expandM agg (qEQ f v) none) :=
  ⟨demorgan_and agg, demorgan_or agg, not_not_eq_collapse agg⟩

/-- C3 counterexample: for the list value `[1]`, `EQ(f, [1])` compiles, but
`NOT(NOT(EQ(f, [1])))` raises (the De Morgan branch fires on the list body
and negating the bare field fails), so the double-negation half of the
claim is false as stated for every value `v`. -/
theorem not_not_eq_fails_on_list_value :
    expandM false (qNOT (qNOT (qEQ (.field "t" "x" "string") (.varr [.vint 1])))) none =
        .error "TypeError: fragment is not a mapping" ∧
      expandM false (qEQ (.field "t" "x" "string") (.varr [.vint 1])) none =
        .ok (.vdoc [("x", .varr [.vint 1])]) ∧
      (expandM false (qNOT (qNOT (qEQ (.field "t" "x" "string")
          (.varr [.vint 1])))) none).toOption ≠
        (expandM false (qEQ (.field "t" "x" "string") (.varr [.vint 1])) none).toOption := by
  have h1 : expandM false (qNOT (qNOT (qEQ (.field "t" "x" "string")
      (.varr [.vint 1])))) none = .error "TypeError: fragment is not a mapping" := by
    simp +decide [expandM, mongoOp1, mongoOp2, mongoNOT, buildLikeRegex, coerceSecondVal,
      represent, representDate, representTime, representListRef, mongoBlobMVal,
      mvalKey, strContains, containsChars, startsWithChars, MExp.pytype, MOp.isQuery,
      qNOT, qEQ, List.mapM, List.mapM.loop,
      except_bind_ok, except_bind_err, except_map_ok, except_map_err, except_pure]
  have h2 : expandM false (qEQ (.field "t" "x" "string") (.varr [.vint 1])) none =
      .ok (.vdoc [("x", .varr [.vint 1])]) := by
    simp +decide [expandM, mongoOp1, mongoOp2, mongoNOT, buildLikeRegex, coerceSecondVal,
      represent, representDate, representTime, representListRef, mongoBlobMVal,
      mvalKey, strContains, containsChars, startsWithChars, MExp.pytype, MOp.isQuery,
      qEQ, List.mapM, List.mapM.loop,
      except_bind_ok, except_bind_err, except_map_ok, except_map_err, except_pure]
  refine ⟨h1, h2, ?_⟩
  rw [h1, h2]
  simp [except_toOption_ok, except_toOption_err]

/-- Witness for C3 (amended) at a concrete input: double negation of
`EQ(t.x, 3)` collapses to the equality. -/
theorem not_de_morgan_and_double_negation_witness :
    expandM false (qNOT (qNOT (qEQ (.field "t" "x" "string") (.vint 3)))) none =
      expandM false (qEQ (.field "t" "x" "string") (.vint 3)) none :=
  (not_de_morgan_and_double_negation false).2.2 (.field "t" "x" "string") (.vint 3)
    "x" (.vint 3)
    (by simp +decide [expandM, mongoOp1, mongoOp2, mongoNOT, buildLikeRegex,
      coerceSecondVal, represent, representDate, representTime, representListRef,
      mongoBlobMVal, mvalKey, strContains, containsChars, startsWithChars,
      MExp.pytype, MOp.isQuery, qEQ,
      except_bind_ok, except_bind_err, except_map_ok, except_map_err, except_pure])
    rfl

/-- C5: with wildcard translation enabled, `LIKE(field, "a%b_c")` compiles
to the anchored regex `^a.*b.c$` (metacharacters escaped first, then `%` →
`.*` and `_` → `.`); `STARTSWITH(field, "ab%")` does not translate
wildcards, escapes the `%` as a literal and anchors only at the start. -/
theorem like_wildcards_and_startswith_literal (t n : String) :
    expandM false (.node (.opLIKE true) none (.field t n "string")
        (some (.lit (.vstr "a%b_c")))) none =
      .ok (.vdoc [(n, .vdoc [("$regex", .vstr "^a.*b.c$")])]) ∧
    expandM false (.node .opSTARTSWITH none (.field t n "string")
        (some (.lit (.vstr "ab%")))) none =
      .ok (.vdoc [(n, .vdoc [("$regex", .vstr "^ab\\%")])]) := by
  constructor <;>
    simp +decide [expandM, mongoOp1, mongoOp2, mongoNOT, buildLikeRegex,
      coerceSecondVal, represent, representDate, representTime, representListRef,
      mongoBlobMVal, mvalKey, strContains, containsChars, startsWithChars,
      strStartsWith, replaceStr, replaceAux, reEscape, MExp.pytype, MOp.isQuery,
      except_bind_ok, except_bind_err, except_map_ok, except_map_err, except_pure]

/-- C8 (amended): for a field whose declared type is neither `id` nor a
reference type, compiling any of `LT`/`LE`/`GT`/`GE` with a missing right
operand fails with the malformed-input error `Cannot compare ... with
None` instead of emitting a fragment comparing against null.  (For id- and
reference-typed fields the Query-node rewrite coerces the missing operand
to identifier zero first, and the comparison succeeds — see the
counterexample.) -/
theorem comparison_with_none_fails (agg : Bool) (t n ft : String)
    (ety : Option String)
    (h : (ft == "id" || strContains ft "reference") = false) :
    ∀ op ∈ [MOp.opLT, MOp.opLE, MOp.opGT, MOp.opGE],
      expandM agg (.node op ety (.field t n ft) none) none =
        .error ("RuntimeError: Cannot compare " ++ (t ++ "." ++ n) ++ " with None") := by
  intro op hop
  simp only [List.mem_cons, List.mem_singleton, List.not_mem_nil, or_false] at hop
  rcases hop with rfl | rfl | rfl | rfl <;>
    simp [expandM, mongoOp1, h, fieldStrOf]

/-- C8 counterexample: `GT(field, None)` on an id-typed field does not
fail — the Query-node rewrite replaces the missing operand with
`ObjectId(0)` before the comparison is dispatched, so the compiler emits
`{"_id": {"$gt": ObjectId("000000000000000000000000")}}`. -/
theorem comparison_with_none_succeeds_on_id_field :
    expandM false (.node .opGT none (.field "t" "id" "id") none) none =
        .ok (.vdoc [("_id", .vdoc [("$gt", .oid "000000000000000000000000")])]) ∧
      ∀ msg, expandM false (.node .opGT none (.field "t" "id" "id") none) none ≠
        .error msg := by
  have h : expandM false (.node .opGT none (.field "t" "id" "id") none) none =
      .ok (.vdoc [("_id", .vdoc [("$gt", .oid "000000000000000000000000")])]) := by
    simp +decide [expandM, mongoOp1, mongoOp2, mongoNOT, buildLikeRegex, coerceSecondVal,
      represent, representDate, representTime, representListRef, mongoBlobMVal, object_id,
      objectIdOfHex, mvalToInt, mvalFalsy, mvalKey, hexCharsOfInt, hexChars, hexDigits,
      hexDigitsAux, zfillChars, int10Chars, int16Chars, int16Go, int0Chars, hexCharVal,
      isDigitStr, isAlnumStr, replaceStr, replaceAux, startsWithChars, containsChars,
      strContains, strStartsWith, reEscape, defaultRandHex, aggregate_map, isTextType,
      concatType, MExp.pytype, MOp.isQuery, fieldStrOf, pyStrOf, isHexChar, Nat.digitChar,
      except_bind_ok, except_bind_err, except_map_ok, except_map_err, except_pure]
  refine ⟨h, fun msg hcontra => ?_⟩
  rw [h] at hcontra
  exact Except.noConfusion hcontra

/-- Witness for C8 (amended) at a concrete input. -/
theorem comparison_with_none_fails_witness :
    expandM false (.node .opGT none (.field "t" "x" "string") none) none =
      .error "RuntimeError: Cannot compare t.x with None" :=
  comparison_with_none_fails false "t" "x" "string" none (by decide)
    MOp.opGT (by simp)

/-- C9: compiling a `Query` node whose left operand is an id- or
reference-typed `Field` rewrites the caller's tree: the field's name is
overwritten with `_id` (for id-typed fields; reference fields keep their
name) and the right operand is replaced by its native-identifier coercion,
and the compiler dispatches the operator on the rewritten operands. -/
theorem expand_rewrites_query_in_place (agg : Bool) (op : MOp)
    (ety : Option String) (t n ftype : String) (second : Option MExp)
    (cv : MVal) (ft : Option String)
    (hq : op.isQuery = true)
    (hid : (ftype == "id" || strContains ftype "reference") = true)
    (hcv : coerceSecondVal second = .ok cv) :
    expandMutate (.node op ety (.field t n ftype) second) =
      .ok (.node op ety (.field t (if ftype == "id" then "_id" else n) ftype)
        (some (.lit cv))) ∧
    expandM agg (.node op ety (.field t n ftype) second) ft =
      mongoOp2 agg op (.field t (if ftype == "id" then "_id" else n) ftype)
        (.lit cv) := by
  constructor
  · simp [expandMutate, hq, hid, hcv, except_bind_ok, except_pure]
  · rw [expandM.eq_def]
    simp [hq, hid, hcv, except_bind_ok]

/-- Witness for C9 at a concrete input: `EQ` on an id-typed field with the
integer `5` rewrites the name to `_id` and the operand to `ObjectId(5)`. -/
theorem expand_rewrites_query_in_place_witness :
    expandMutate (.node .opEQ none (.field "t" "id" "id")
        (some (.lit (.vint 5)))) =
      .ok (.node .opEQ none (.field "t" "_id" "id")
        (some (.lit (.oid "000000000000000000000005")))) ∧
    expandM false (.node .opEQ none (.field "t" "id" "id")
        (some (.lit (.vint 5)))) none =
      mongoOp2 false .opEQ (.field "t" "_id" "id")
        (.lit (.oid "000000000000000000000005")) := by
  have := expand_rewrites_query_in_place false .opEQ none "t" "id" "id"
    (some (.lit (.vint 5))) (.oid "000000000000000000000005") none rfl rfl rfl
  simpa using this

theorem except_bind_eq_ok {α β : Type} {x : Except String α}
    {f : α → Except String β} {b : β} :
    x >>= f = .ok b ↔ ∃ a, x = .ok a ∧ f a = .ok b := by
  cases x <;> simp [except_bind_ok, except_bind_err]

/-- C10: on the direct-find path, a select with `limitby = (skip, max)`
issues the find with offset `skip` and document limit `max - 1` (one less
than the upper bound, not reduced by `skip`); without `limitby` both the
offset and the limit are issued as 0. -/
theorem select_limitby_off_by_one :
    (∀ (db : DbSchema) (store : Store) (query : Option MExp)
        (fields : List MExp) (a b : Int) (r : SelectResult)
        (t : String) (f : Option MVal) (pk : List String) (s l : Int),
      mselect db store query fields ⟨none, some (a, b)⟩ = .ok r →
      r.calls = [DbCall.findCall t f pk s l] → s = a ∧ l = b - 1) ∧
    (∀ (db : DbSchema) (store : Store) (query : Option MExp)
        (fields : List MExp) (r : SelectResult)
        (t : String) (f : Option MVal) (pk : List String) (s l : Int),
      mselect db store query fields ⟨none, none⟩ = .ok r →
      r.calls = [DbCall.findCall t f pk s l] → s = 0 ∧ l = 0) := by
  constructor
  · intro db store query fields a b r t f pk s l hsel hcalls
    rw [mselect.eq_def] at hsel
    simp only [except_bind_eq_ok, except_pure] at hsel
    obtain ⟨ms, hms, ⟨tn, htn, ⟨mq, hmq, hrest⟩⟩⟩ := hsel
    by_cases hshape : fields.any (fun f => f.isNodeE) = true
    · rw [if_pos hshape] at hrest
      simp only [except_bind_eq_ok, except_pure] at hrest
      obtain ⟨prs, hprs, ⟨cns, hcns, hr⟩⟩ := hrest
      replace hr := Except.ok.inj hr
      rw [← hr] at hcalls
      simp at hcalls
    · rw [if_neg hshape] at hrest
      simp only [except_bind_eq_ok, except_pure] at hrest
      obtain ⟨ks, hks, ⟨cns, hcns, hr⟩⟩ := hrest
      replace hr := Except.ok.inj hr
      rw [← hr] at hcalls
      simp at hcalls
      obtain ⟨_, _, _, hs, hl⟩ := hcalls
      exact ⟨hs.symm, hl.symm⟩
  · intro db store query fields r t f pk s l hsel hcalls
    rw [mselect.eq_def] at hsel
    simp only [except_bind_eq_ok, except_pure] at hsel
    obtain ⟨ms, hms, ⟨tn, htn, ⟨mq, hmq, hrest⟩⟩⟩ := hsel
    by_cases hshape : fields.any (fun f => f.isNodeE) = true
    · rw [if_pos hshape] at hrest
      simp only [except_bind_eq_ok, except_pure] at hrest
      obtain ⟨prs, hprs, ⟨cns, hcns, hr⟩⟩ := hrest
      replace hr := Except.ok.inj hr
      rw [← hr] at hcalls
      simp at hcalls
    · rw [if_neg hshape] at hrest
      simp only [except_bind_eq_ok, except_pure] at hrest
      obtain ⟨ks, hks, ⟨cns, hcns, hr⟩⟩ := hrest
      replace hr := Except.ok.inj hr
      rw [← hr] at hcalls
      simp at hcalls
      obtain ⟨_, _, _, hs, hl⟩ := hcalls
      exact ⟨hs.symm, hl.symm⟩

/-- Witness for C10: a select with `limitby = (2, 5)` issues skip 2 and
limit 4. -/
theorem select_limitby_off_by_one_witness :
    ((2 : Int) = 2 ∧ (4 : Int) = 5 - 1) ∧ ((0 : Int) = 0 ∧ (0 : Int) = 0) := by
  have hsel1 : mselect [] ⟨[]⟩ (some (qEQ (.field "t" "x" "string") (.vint 1)))
      [.field "t" "x" "string"] ⟨none, some (2, 5)⟩ =
      .ok ⟨[], ["x"], [DbCall.findCall "t" (some (.vdoc [("x", .vint 1)])) ["x"] 2 4]⟩ := by
    simp +decide [mselect, expandM, mongoOp1, mongoOp2, mongoNOT, buildLikeRegex,
      coerceSecondVal, represent, representDate, representTime, representListRef,
      mongoBlobMVal, mvalKey, strContains, containsChars, startsWithChars, strStartsWith,
      MExp.pytype, MOp.isQuery, qEQ, get_table, MExp.getTablename, tablenameFromFields,
      MExp.isNodeE, MExp.isFieldE, fieldName, Store.get, findDocs, applySkipLimit,
      projectFields, DbSchema.get, mongosortOf, splitChars, List.mapM, List.mapM.loop,
      except_bind_ok, except_bind_err, except_map_ok, except_map_err, except_pure]
  have hsel2 : mselect [] ⟨[]⟩ (some (qEQ (.field "t" "x" "string") (.vint 1)))
      [.field "t" "x" "string"] ⟨none, none⟩ =
      .ok ⟨[], ["x"], [DbCall.findCall "t" (some (.vdoc [("x", .vint 1)])) ["x"] 0 0]⟩ := by
    simp +decide [mselect, expandM, mongoOp1, mongoOp2, mongoNOT, buildLikeRegex,
      coerceSecondVal, represent, representDate, representTime, representListRef,
      mongoBlobMVal, mvalKey, strContains, containsChars, startsWithChars, strStartsWith,
      MExp.pytype, MOp.isQuery, qEQ, get_table, MExp.getTablename, tablenameFromFields,
      MExp.isNodeE, MExp.isFieldE, fieldName, Store.get, findDocs, applySkipLimit,
      projectFields, DbSchema.get, mongosortOf, splitChars, List.mapM, List.mapM.loop,
      except_bind_ok, except_bind_err, except_map_ok, except_map_err, except_pure]
  exact ⟨select_limitby_off_by_one.1 [] ⟨[]⟩ _ _ 2 5 _ _ _ _ 2 4 hsel1 rfl,
    select_limitby_off_by_one.2 [] ⟨[]⟩ _ _ _ _ _ _ 0 0 hsel2 rfl⟩

theorem expand_query_parts {query : MExp} {tn : String} {f : MVal}
    (h : expand_query query none = .ok (tn, f)) :
    get_table query = .ok tn ∧ expandM false query none = .ok f ∧
      expand_query query (some tn) = .ok (tn, f) := by
  rw [expand_query.eq_def] at h
  simp only [except_bind_eq_ok, except_pure] at h
  obtain ⟨tn2, htn, f2, hf, heq⟩ := h
  replace heq := Except.ok.inj heq
  have h1 : tn2 = tn := congrArg Prod.fst heq
  have h2 : f2 = f := congrArg Prod.snd heq
  subst h1; subst h2
  refine ⟨htn, hf, ?_⟩
  rw [expand_query.eq_def]
  simp [hf, except_bind_ok, except_pure]

/-- C1 (amended): an update whose filter matches zero documents returns
count 0; in the no-acknowledgment case the pre-update count short-circuits
the call and no store call is issued at all; in the acknowledged
plain-assignment case a single `update_many` (matching zero documents) is
still issued, so "issues no write call" does not hold regardless of the
acknowledgment setting (see the counterexample). -/
theorem update_zero_matched (serverGe26 defaultSafe : Bool) (store : Store)
    (query : MExp) (tn : String) (f : MVal) (tableFields : List String)
    (fields : List ((String × String) × UpdVal)) (safe : Option Bool)
    (hq : query.isQuery = true)
    (hexp : expand_query query none = .ok (tn, f))
    (hzero : findDocs (store.get tn) (some f) = []) :
    ((match safe with | none => defaultSafe | some b => b) = false →
      mupdate serverGe26 defaultSafe store tn query tableFields fields safe =
        .ok (0, store, [])) ∧
    (∀ n st calls,
      mupdate serverGe26 defaultSafe store tn query tableFields fields safe =
        .ok (n, st, calls) →
      n = 0 ∧
        ((match safe with | none => defaultSafe | some b => b) = false →
          calls = [])) := by
  obtain ⟨hgt, hE, hsome⟩ := expand_query_parts hexp
  have hzero2 : (store.get tn).filter (fun d => docMatches d f) = [] := hzero
  have hcount : mcount store query false = .ok (tn, f, 0) := by
    rw [mcount.eq_def]
    simp [hq, hexp, hzero, except_bind_ok, except_pure]
  have hA : (match safe with | none => defaultSafe | some b => b) = false →
      mupdate serverGe26 defaultSafe store tn query tableFields fields safe =
        .ok (0, store, []) := by
    intro hS
    rw [mupdate.eq_def]
    simp [hq, hS, hcount, except_bind_ok, except_pure]
  refine ⟨hA, ?_⟩
  intro n st calls h
  cases hS : (match safe with | none => defaultSafe | some b => b) with
  | false =>
    rw [hA hS] at h
    replace h := Except.ok.inj h
    exact ⟨(congrArg (fun p => p.1) h).symm,
      fun _ => (congrArg (fun p => p.2.2) h).symm⟩
  | true =>
    rw [mupdate.eq_def] at h
    simp only [hq, hS, hsome, except_bind_ok, except_pure, Bool.not_true,
      Bool.false_and, Bool.not_false, if_false, if_true, ite_true, ite_false,
      Bool.false_eq_true, reduceIte] at h
    by_cases hX : fields.any (fun fv => fv.2.isExpr) = true
    · simp only [hX, if_true, hzero, List.map_nil, List.foldlM_nil,
        except_pure] at h
      obtain ⟨proj, hP, hret⟩ := except_bind_eq_ok.mp h
      replace hret := Except.ok.inj hret
      refine ⟨(congrArg (fun p => p.1) hret).symm, fun _ => ?_⟩
      exact (congrArg (fun p => p.2.2) hret).symm
    · simp only [hX, if_false, Bool.false_eq_true, updateManyDocs, hzero2,
        List.length_nil, except_pure, ite_true, if_true, reduceIte] at h
      obtain ⟨pairs, hQ, hret⟩ := except_bind_eq_ok.mp h
      replace hret := Except.ok.inj hret
      refine ⟨(congrArg (fun p => p.1) hret).symm, fun hF => ?_⟩
      exact absurd hF (by simp)

/-- C1 counterexample: with acknowledged writes and a plain assignment,
an update whose filter matches zero documents (here: an empty collection)
still issues an `update_many` call against the store — the short-circuit
exists only on the no-acknowledgment path. -/
theorem update_zero_matched_still_writes_when_acknowledged :
    mupdate true true ⟨[]⟩ "t" (qEQ (.field "t" "x" "string") (.vint 1)) []
        [(("y", "string"), .uval (.vstr "b"))] (some true) =
      .ok (0, ⟨[("t", [])]⟩,
        [DbCall.updateMany "t" (.vdoc [("x", .vint 1)])
          (.vdoc [("$set", .vdoc [("y", .vstr "b")])])]) ∧
    [DbCall.updateMany "t" (.vdoc [("x", .vint 1)])
      (.vdoc [("$set", .vdoc [("y", .vstr "b")])])] ≠ ([] : List DbCall) := by
  constructor
  · simp +decide [mupdate, mcount, expand_query, get_table, MExp.getTablename,
      expandM, mongoOp1, mongoOp2, mongoNOT, buildLikeRegex, coerceSecondVal,
      represent, representDate, representTime, representListRef, mongoBlobMVal,
      mvalKey, strContains, containsChars, startsWithChars, strStartsWith,
      MExp.pytype, MOp.isQuery, qEQ, UpdVal.isExpr, Store.get, Store.set,
      setTables, findDocs, updateManyDocs, docMatches, condsMatch, condMatch,
      opsMatch, opMatch, litMatch, Doc.lookup, applyUpdate, Doc.set,
      List.mapM, List.mapM.loop, List.foldrM,
      except_bind_ok, except_bind_err, except_map_ok, except_map_err, except_pure]
  · simp

/-- Witness for C1 (amended): with acknowledgment disabled, an update on
an empty collection returns 0 and issues no store call. -/
theorem update_zero_matched_witness :
    mupdate true true ⟨[]⟩ "t" (qEQ (.field "t" "x" "string") (.vint 1)) []
        [(("y", "string"), .uval (.vstr "b"))] (some false) =
      .ok (0, ⟨[]⟩, []) := by
  have hexp : expand_query (qEQ (.field "t" "x" "string") (.vint 1)) none =
      .ok ("t", .vdoc [("x", .vint 1)]) := by
    simp +decide [expand_query, get_table, MExp.getTablename, expandM, mongoOp2,
      mongoOp1, mongoNOT, buildLikeRegex, coerceSecondVal, represent, mvalKey,
      strContains, containsChars, startsWithChars, MExp.pytype, MOp.isQuery, qEQ,
      except_bind_ok, except_bind_err, except_pure]
  exact (update_zero_matched true true ⟨[]⟩
    (qEQ (.field "t" "x" "string") (.vint 1)) "t" (.vdoc [("x", .vint 1)]) []
    [(("y", "string"), .uval (.vstr "b"))] (some false) (by decide) hexp rfl).1 rfl

theorem isNodeE_shape {e : MExp} (h : e.isNodeE = true) :
    ∃ op ety f s, e = .node op ety f s := by
  cases e with
  | node op ety f s => exact ⟨op, ety, f, s, rfl⟩
  | field t n ft => simp [MExp.isNodeE] at h
  | lit v => simp [MExp.isNodeE] at h

theorem isFieldE_false_of_isNodeE {e : MExp} (h : e.isNodeE = true) :
    e.isFieldE = false := by
  obtain ⟨op, ety, f, s, rfl⟩ := isNodeE_shape h
  rfl

theorem any_isNodeE_false_of_all_isFieldE : ∀ fields : List MExp,
    fields.all MExp.isFieldE = true → fields.any MExp.isNodeE = false := by
  intro fields h
  induction fields with
  | nil => rfl
  | cons f fs ih =>
    simp only [List.all_cons, Bool.and_eq_true] at h
    have hf : f.isNodeE = false := by
      cases f with
      | field t n ft => rfl
      | lit v => rfl
      | node op ety a s => simp [MExp.isFieldE] at h
    simp [List.any_cons, hf, ih h.2]

theorem all_isFieldE_map (tn : String) : ∀ l : List (String × String),
    (l.map (fun ft => MExp.field tn ft.1 ft.2)).all MExp.isFieldE = true := by
  intro l
  induction l with
  | nil => rfl
  | cons x xs ih => simp [List.all_cons, MExp.isFieldE, ih]

theorem mapM_field_ok (g : MExp → Except String String)
    (hg : ∀ t n ft, ∃ s, g (.field t n ft) = .ok s) :
    ∀ fields : List MExp, fields.all MExp.isFieldE = true →
      ∃ ks, fields.mapM g = .ok ks := by
  intro fields h
  induction fields with
  | nil => exact ⟨[], rfl⟩
  | cons f fs ih =>
    simp only [List.all_cons, Bool.and_eq_true] at h
    obtain ⟨t, n, ft, rfl⟩ : ∃ t n ft, f = .field t n ft := by
      cases f with
      | field t n ft => exact ⟨t, n, ft, rfl⟩
      | lit v => simp [MExp.isFieldE] at h
      | node op ety a s => simp [MExp.isFieldE] at h
    obtain ⟨s, hs⟩ := hg t n ft
    obtain ⟨ks, hks⟩ := ih h.2
    refine ⟨s :: ks, ?_⟩
    rw [List.mapM_cons, hs, hks]
    rfl

/-- C6: a select that requests an aggregate-expression field against a
filter matching no documents returns exactly one row holding null (the
empty aggregation result is replaced by the null row), while the
equivalent plain-field select on an empty matching set returns zero
rows. -/
theorem select_aggregate_empty_null_row_vs_plain_empty :
    (∀ (db : DbSchema) (store : Store) (q e : MExp) (tn : String) (f p : MVal),
      q.isQuery = true → get_table q = .ok tn →
      expandM false q none = .ok f →
      e.isNodeE = true → expandM true e none = .ok p →
      findDocs (store.get tn) (some f) = [] →
      ∃ r, mselect db store (some q) [e] ⟨none, none⟩ = .ok r ∧
        r.rows = [[MVal.vnull]]) ∧
    (∀ (db : DbSchema) (store : Store) (q : MExp) (fields : List MExp)
        (tn : String) (f : MVal),
      q.isQuery = true → get_table q = .ok tn →
      expandM false q none = .ok f →
      fields.all MExp.isFieldE = true →
      findDocs (store.get tn) (some f) = [] →
      ∃ r, mselect db store (some q) fields ⟨none, none⟩ = .ok r ∧
        r.rows = []) := by
  constructor
  · intro db store q e tn f p hq hgt hE hnode hp hzero
    obtain ⟨op, ety, fe, se, rfl⟩ := isNodeE_shape hnode
    rw [mselect.eq_def]
    simp [hq, hgt, hE, hp, hzero, MExp.isNodeE, MExp.isFieldE, groupDocs,
      List.mapM, List.mapM.loop, except_bind_ok, except_pure]
  · intro db store q fields tn f hq hgt hE hfields hzero
    have hnoagg := any_isNodeE_false_of_all_isFieldE fields hfields
    by_cases hempty : fields = []
    · subst hempty
      have hall := all_isFieldE_map tn (db.get tn).fields
      obtain ⟨ks, hks⟩ := mapM_field_ok fieldName
        (fun t n ft => ⟨n, rfl⟩) _ hall
      obtain ⟨cs, hcs⟩ := mapM_field_ok
        (fun fx => match fx with
          | .field _ n _ => pure (if n == "id" || n == "_id" then "_id" else n)
          | _ => .error "AttributeError: no attribute name")
        (fun t n ft => ⟨if n == "id" || n == "_id" then "_id" else n, rfl⟩) _ hall
      refine ⟨⟨[], cs, [DbCall.findCall tn (some f) ks 0 0]⟩, ?_, rfl⟩
      rw [mselect.eq_def]
      have hksl : List.mapM.loop fieldName
          ((db.get tn).fields.map (fun ft => MExp.field tn ft.1 ft.2)) [] =
          Except.ok ks := hks
      have hcsl : List.mapM.loop
          (fun fx => match fx with
            | MExp.field _ n _ => Except.ok (if n == "id" || n == "_id" then "_id" else n)
            | _ => .error "AttributeError: no attribute name")
          ((db.get tn).fields.map (fun ft => MExp.field tn ft.1 ft.2)) [] =
          Except.ok cs := hcs
      simp [hq, hgt, hE, hzero, hksl, hcsl, applySkipLimit,
        except_bind_ok, except_pure, -beq_iff_eq, -Bool.or_eq_true]
    · obtain ⟨ks, hks⟩ := mapM_field_ok fieldName
        (fun t n ft => ⟨n, rfl⟩) fields hfields
      obtain ⟨cs, hcs⟩ := mapM_field_ok
        (fun fx => match fx with
          | .field _ n _ => pure (if n == "id" || n == "_id" then "_id" else n)
          | _ => .error "AttributeError: no attribute name")
        (fun t n ft => ⟨if n == "id" || n == "_id" then "_id" else n, rfl⟩)
        fields hfields
      refine ⟨⟨[], cs, [DbCall.findCall tn (some f) ks 0 0]⟩, ?_, rfl⟩
      rw [mselect.eq_def]
      have hksl : List.mapM.loop fieldName fields [] = Except.ok ks := hks
      have hcsl : List.mapM.loop
          (fun fx => match fx with
            | MExp.field _ n _ => Except.ok (if n == "id" || n == "_id" then "_id" else n)
            | _ => .error "AttributeError: no attribute name")
          fields [] = Except.ok cs := hcs
      simp [hq, hgt, hE, hzero, hnoagg, hempty, hksl, hcsl, applySkipLimit,
        except_bind_ok, except_pure, -beq_iff_eq, -Bool.or_eq_true]

theorem select_aggregate_empty_null_row_vs_plain_empty_witness :
    (∃ r, mselect [] ⟨[]⟩
        (some (qEQ (.field "t" "x" "string") (.vstr "a")))
        [.node .opCOUNT none (.field "t" "x" "string") none] ⟨none, none⟩ =
        .ok r ∧ r.rows = [[MVal.vnull]]) ∧
    (∃ r, mselect [] ⟨[]⟩
        (some (qEQ (.field "t" "x" "string") (.vstr "a")))
        [.field "t" "x" "string"] ⟨none, none⟩ = .ok r ∧ r.rows = []) := by
  constructor
  · exact select_aggregate_empty_null_row_vs_plain_empty.1 [] ⟨[]⟩
      (qEQ (.field "t" "x" "string") (.vstr "a"))
      (.node .opCOUNT none (.field "t" "x" "string") none) "t"
      (.vdoc [("x", .vstr "a")]) (.vdoc [("$sum", .vint 1)])
      (by decide)
      (by simp +decide [qEQ, get_table, MExp.getTablename])
      (by simp +decide [qEQ, expandM, mongoOp1, mongoOp2, mongoNOT, buildLikeRegex, coerceSecondVal, represent, representDate, representTime, representListRef, mongoBlobMVal, object_id, objectIdOfHex, mvalToInt, mvalFalsy, mvalKey, hexCharsOfInt, hexChars, hexDigits, hexDigitsAux, zfillChars, int10Chars, int16Chars, int16Go, int0Chars, hexCharVal, isDigitStr, isAlnumStr, replaceStr, replaceAux, startsWithChars, containsChars, strContains, strStartsWith, reEscape, defaultRandHex, aggregate_map, isTextType, concatType, MExp.pytype, MOp.isQuery, fieldStrOf, pyStrOf, isHexChar, Nat.digitChar, except_bind_ok, except_bind_err, except_map_ok, except_map_err, except_pure])
      rfl
      (by simp +decide [expandM, mongoOp1, mongoOp2, mongoNOT, buildLikeRegex, coerceSecondVal, represent, representDate, representTime, representListRef, mongoBlobMVal, object_id, objectIdOfHex, mvalToInt, mvalFalsy, mvalKey, hexCharsOfInt, hexChars, hexDigits, hexDigitsAux, zfillChars, int10Chars, int16Chars, int16Go, int0Chars, hexCharVal, isDigitStr, isAlnumStr, replaceStr, replaceAux, startsWithChars, containsChars, strContains, strStartsWith, reEscape, defaultRandHex, aggregate_map, isTextType, concatType, MExp.pytype, MOp.isQuery, fieldStrOf, pyStrOf, isHexChar, Nat.digitChar, except_bind_ok, except_bind_err, except_map_ok, except_map_err, except_pure])
      (by simp +decide [findDocs, Store.get])
  · exact select_aggregate_empty_null_row_vs_plain_empty.2 [] ⟨[]⟩
      (qEQ (.field "t" "x" "string") (.vstr "a"))
      [.field "t" "x" "string"] "t" (.vdoc [("x", .vstr "a")])
      (by decide)
      (by simp +decide [qEQ, get_table, MExp.getTablename])
      (by simp +decide [qEQ, expandM, mongoOp1, mongoOp2, mongoNOT, buildLikeRegex, coerceSecondVal, represent, representDate, representTime, representListRef, mongoBlobMVal, object_id, objectIdOfHex, mvalToInt, mvalFalsy, mvalKey, hexCharsOfInt, hexChars, hexDigits, hexDigitsAux, zfillChars, int10Chars, int16Chars, int16Go, int0Chars, hexCharVal, isDigitStr, isAlnumStr, replaceStr, replaceAux, startsWithChars, containsChars, strContains, strStartsWith, reEscape, defaultRandHex, aggregate_map, isTextType, concatType, MExp.pytype, MOp.isQuery, fieldStrOf, pyStrOf, isHexChar, Nat.digitChar, except_bind_ok, except_bind_err, except_map_ok, except_map_err, except_pure])
      (by decide)
      (by simp +decide [findDocs, Store.get])

/-! ### Cascade-delete helper lemmas -/

theorem all_split {α : Type} (p q : α → Bool) :
    ∀ l : List α, l.all (fun a => p a && q a) = true →
      l.all p = true ∧ l.all q = true := by
  intro l h
  induction l with
  | nil => exact ⟨rfl, rfl⟩
  | cons a t ih =>
    simp only [List.all_cons, Bool.and_eq_true] at h ⊢
    obtain ⟨⟨hp, hq⟩, ht⟩ := h
    obtain ⟨h1, h2⟩ := ih ht
    exact ⟨⟨hp, h1⟩, ⟨hq, h2⟩⟩

theorem all_filter {α : Type} (p : α → Bool) (q : α → Bool) :
    ∀ l : List α, l.all q = true → (l.filter p).all q = true := by
  intro l h
  induction l with
  | nil => rfl
  | cons a t ih =>
    simp only [List.all_cons, Bool.and_eq_true] at h
    simp only [List.filter_cons]
    by_cases hp : p a = true
    · simp [hp, List.all_cons, h.1, ih h.2]
    · simp only [Bool.not_eq_true] at hp
      simp [hp, ih h.2]

theorem object_id_on_oid (r : String) (h : String) :
    object_id r (.oid h) = .ok (.oid h) := rfl

theorem mapM_object_id_oids : ∀ l : List MVal, l.all mvalIsOid = true →
    l.mapM (object_id defaultRandHex) = .ok l := by
  intro l h
  induction l with
  | nil => rfl
  | cons v t ih =>
    simp only [List.all_cons, Bool.and_eq_true] at h
    obtain ⟨hv, ht⟩ := h
    cases v with
    | oid hx =>
      rw [List.mapM_cons, object_id_on_oid, ih ht]
      rfl
    | vnull => simp [mvalIsOid] at hv
    | vbool b => simp [mvalIsOid] at hv
    | vint n => simp [mvalIsOid] at hv
    | vstr s => simp [mvalIsOid] at hv
    | varr xs => simp [mvalIsOid] at hv
    | vdoc kvs => simp [mvalIsOid] at hv
    | vbin s d => simp [mvalIsOid] at hv
    | vdate y m d => simp [mvalIsOid] at hv
    | vtime a b c => simp [mvalIsOid] at hv
    | vdatetime a b c d e f => simp [mvalIsOid] at hv

theorem represent_ref_ta_oid (v : MVal) (h : mvalIsOid v = true) :
    represent v (some "reference ta") = .ok v := by
  cases v <;> simp [mvalIsOid] at h <;> rfl

theorem expandM_lit_some (agg : Bool) (v : MVal) (ft : String) :
    expandM agg (.lit v) (some ft) = represent v (some ft) := by
  simp [expandM]

theorem mapM_expand_ref_ta (agg : Bool) :
    ∀ l : List MVal, l.all mvalIsOid = true →
      l.mapM (fun item => expandM agg (.lit item) (some "reference ta")) =
        .ok l := by
  intro l h
  induction l with
  | nil => rfl
  | cons v t ih =>
    simp only [List.all_cons, Bool.and_eq_true] at h
    obtain ⟨hv, ht⟩ := h
    rw [List.mapM_cons, expandM_lit_some, represent_ref_ta_oid v hv, ih ht]
    rfl

theorem loop_object_id_oids : ∀ (l : List MVal) (acc : List MVal),
    l.all mvalIsOid = true →
    List.mapM.loop (object_id defaultRandHex) l acc = .ok (acc.reverse ++ l) := by
  intro l
  induction l with
  | nil => intro acc _; simp [List.mapM.loop, except_pure]
  | cons v t ih =>
    intro acc h
    simp only [List.all_cons, Bool.and_eq_true] at h
    obtain ⟨hv, ht⟩ := h
    cases v <;> simp [mvalIsOid] at hv
    rw [List.mapM.loop, object_id_on_oid, except_bind_ok]
    rw [ih _ ht]
    simp

theorem loop_represent_ref_ta : ∀ (l : List MVal) (acc : List MVal),
    l.all mvalIsOid = true →
    List.mapM.loop (fun item => represent item (some "reference ta")) l acc =
      .ok (acc.reverse ++ l) := by
  intro l
  induction l with
  | nil => intro acc _; simp [List.mapM.loop, except_pure]
  | cons v t ih =>
    intro acc h
    simp only [List.all_cons, Bool.and_eq_true] at h
    obtain ⟨hv, ht⟩ := h
    rw [List.mapM.loop, represent_ref_ta_oid v hv, except_bind_ok]
    rw [ih _ ht]
    simp

theorem expand_belongs (deleted : List MVal)
    (h : deleted.all mvalIsOid = true) :
    expandM false (.node .opBELONGS none (.field "tb" "refa" "reference ta")
        (some (.lit (.varr deleted)))) none =
      .ok (.vdoc [("refa", .vdoc [("$in", .varr deleted)])]) := by
  have h1 := loop_object_id_oids deleted [] h
  have h2 := loop_represent_ref_ta deleted [] h
  simp only [List.reverse_nil, List.nil_append] at h1 h2
  rw [expandM.eq_def]
  simp [MOp.isQuery, strContains, containsChars, startsWithChars,
    coerceSecondVal, h1, h2, mongoOp2, MExp.pytype, expandM, mvalKey,
    except_bind_ok, except_pure]

theorem loop_docId_ok : ∀ (c : Collection) (acc : List MVal),
    c.all docIdOid = true →
    List.mapM.loop (fun d => match Doc.lookup d "_id" with
      | some v => Except.ok v
      | none => Except.error "KeyError: _id") c acc =
      .ok (acc.reverse ++ c.map docId) := by
  intro c
  induction c with
  | nil => intro acc _; simp [List.mapM.loop, except_pure]
  | cons d t ih =>
    intro acc h
    simp only [List.all_cons, Bool.and_eq_true] at h
    obtain ⟨hd, ht⟩ := h
    unfold docIdOid at hd
    rw [List.mapM.loop]
    match hl : Doc.lookup d "_id" with
    | some v =>
      rw [except_bind_ok, ih _ ht]
      simp [docId, hl]
    | none => rw [hl] at hd; simp at hd

theorem mapM_docId_ok (c : Collection) (h : c.all docIdOid = true) :
    c.mapM (fun d => match Doc.lookup d "_id" with
      | some v => Except.ok v
      | none => Except.error "KeyError: _id") = .ok (c.map docId) := by
  have h1 := loop_docId_ok c [] h
  simpa [List.mapM] using h1

theorem map_docId_oids : ∀ c : Collection, c.all docIdOid = true →
    (c.map docId).all mvalIsOid = true := by
  intro c h
  induction c with
  | nil => rfl
  | cons d t ih =>
    simp only [List.all_cons, Bool.and_eq_true] at h
    obtain ⟨hd, ht⟩ := h
    unfold docIdOid at hd
    simp only [List.map_cons, List.all_cons, Bool.and_eq_true]
    refine ⟨?_, ih ht⟩
    unfold docId
    match hl : Doc.lookup d "_id" with
    | some (.oid hx) => rfl
    | some .vnull => rw [hl] at hd; simp at hd
    | some (.vbool b) => rw [hl] at hd; simp at hd
    | some (.vint n) => rw [hl] at hd; simp at hd
    | some (.vstr s) => rw [hl] at hd; simp at hd
    | some (.varr xs) => rw [hl] at hd; simp at hd
    | some (.vdoc kvs) => rw [hl] at hd; simp at hd
    | some (.vbin s dd) => rw [hl] at hd; simp at hd
    | some (.vdate y m dd) => rw [hl] at hd; simp at hd
    | some (.vtime a b cc) => rw [hl] at hd; simp at hd
    | some (.vdatetime a b cc dd e f) => rw [hl] at hd; simp at hd
    | none => rw [hl] at hd; simp at hd

theorem lookup_set_eq : ∀ (d : Doc) (k : String) (v : MVal),
    Doc.lookup (Doc.set d k v) k = some v := by
  intro d k v
  induction d with
  | nil => simp [Doc.set, Doc.lookup]
  | cons kv t ih =>
    by_cases h : kv.1 == k
    · simp [Doc.set, Doc.lookup, h]
    · simp only [Bool.not_eq_true] at h
      simp [Doc.set, Doc.lookup, h, ih]

theorem set_set : ∀ (d : Doc) (k : String) (v w : MVal),
    Doc.set (Doc.set d k v) k w = Doc.set d k w := by
  intro d k v w
  induction d with
  | nil => simp [Doc.set]
  | cons kv t ih =>
    by_cases h : kv.1 == k
    · simp [Doc.set, h]
    · simp only [Bool.not_eq_true] at h
      simp [Doc.set, h, ih]

theorem set_lookup_self : ∀ (d : Doc) (k : String) (v : MVal),
    Doc.lookup d k = some v → Doc.set d k v = d := by
  intro d k v h
  induction d with
  | nil => simp [Doc.lookup] at h
  | cons kv t ih =>
    by_cases h2 : kv.1 == k
    · simp only [Doc.lookup, h2, if_true, Option.some.injEq] at h
      obtain ⟨k1, v1⟩ := kv
      simp only at h2
      simp [Doc.set, h2, h]
      exact h.symm
    · simp only [Bool.not_eq_true] at h2
      simp only [Doc.lookup, h2, Bool.false_eq_true, if_false] at h
      simp [Doc.set, h2, ih h]

theorem docMatches_refa_in (d : Doc) (deleted : List MVal)
    (h : refOk "refa" d = true) :
    docMatches d (.vdoc [("refa", .vdoc [("$in", .varr deleted)])]) =
      deleted.contains (refVal "refa" d) := by
  unfold refOk at h
  rw [docMatches, condsMatch, condsMatch, condMatch]
  match hl : Doc.lookup d "refa" with
  | some (.oid hx) =>
    simp [opsMatch, opMatch, refVal, hl, strStartsWith, startsWithChars]
  | none =>
    simp [opsMatch, opMatch, refVal, hl, strStartsWith, startsWithChars]
  | some .vnull => rw [hl] at h; simp at h
  | some (.vbool b) => rw [hl] at h; simp at h
  | some (.vint n) => rw [hl] at h; simp at h
  | some (.vstr s) => rw [hl] at h; simp at h
  | some (.varr xs) => rw [hl] at h; simp at h
  | some (.vdoc kvs) => rw [hl] at h; simp at h
  | some (.vbin s dd) => rw [hl] at h; simp at h
  | some (.vdate y m dd) => rw [hl] at h; simp at h
  | some (.vtime a b c) => rw [hl] at h; simp at h
  | some (.vdatetime a b c dd e f) => rw [hl] at h; simp at h

theorem contains_varr_false (xs : List MVal) (h : xs.all mvalIsOid = true)
    (ys : List MVal) : xs.contains (.varr ys) = false := by
  induction xs with
  | nil => rfl
  | cons x t ih =>
    simp only [List.all_cons, Bool.and_eq_true] at h
    obtain ⟨hx, ht⟩ := h
    cases x <;> simp [mvalIsOid] at hx
    simp [List.contains_cons, ih ht]
    rfl

theorem beq_varr_oid_false (xs : List MVal) (v : MVal)
    (hv : mvalIsOid v = true) : (MVal.varr xs == v) = false := by
  cases v <;> simp [mvalIsOid] at hv
  rfl

theorem beq_unfold (a b : MVal) : (a == b) = MVal.beq a b := rfl

theorem sole_match_eq (d : Doc) (delv : MVal)
    (h : listRefOk "reflist" d = true) (hv : mvalIsOid delv = true) :
    docMatches d (.vdoc [("reflist", .varr [delv])]) =
      soleListRef "reflist" [delv] d := by
  unfold listRefOk at h
  rw [docMatches, condsMatch, condsMatch, condMatch]
  unfold soleListRef
  cases hl : Doc.lookup d "reflist" with
  | none =>
    simp [litMatch]
    rfl
  | some w =>
    rw [hl] at h
    cases w with
    | varr xs =>
      simp only at h
      match xs with
      | [] =>
        simp [litMatch]
        rfl
      | [x] =>
        simp only [List.all_cons, Bool.and_eq_true, List.all_nil, and_true] at h
        simp only [litMatch]
        rw [contains_varr_false [x] (by simp [h]) [delv]]
        simp only [beq_unfold, MVal.beq, MVal.beqArr]
        simp [List.contains_cons, beq_unfold]
      | x :: y :: t =>
        simp only [litMatch]
        rw [contains_varr_false (x :: y :: t) h [delv]]
        simp only [beq_unfold, MVal.beq, MVal.beqArr]
        simp
    | vnull => simp at h
    | vbool b => simp at h
    | vint n => simp at h
    | vstr s => simp at h
    | vdoc kvs => simp at h
    | oid hx => simp at h
    | vbin s dd => simp at h
    | vdate y m dd => simp at h
    | vtime a b c => simp at h
    | vdatetime a b c dd e f => simp at h

theorem soleListRef_nil (name : String) (d : Doc) :
    soleListRef name [] d = false := by
  unfold soleListRef
  cases hl : Doc.lookup d name with
  | none => rfl
  | some w =>
    cases w with
    | varr xs =>
      match xs with
      | [] => rfl
      | [x] => rfl
      | x :: y :: t => rfl
    | vnull => rfl
    | vbool b => rfl
    | vint n => rfl
    | vstr s => rfl
    | vdoc kvs => rfl
    | oid hx => rfl
    | vbin s dd => rfl
    | vdate y m dd => rfl
    | vtime a b c => rfl
    | vdatetime a b c dd e f => rfl

theorem sole_cons (name : String) (delv : MVal) (rest : List MVal) (d : Doc) :
    soleListRef name (delv :: rest) d =
      (soleListRef name [delv] d || soleListRef name rest d) := by
  unfold soleListRef
  cases hl : Doc.lookup d name with
  | none => rfl
  | some w =>
    cases w with
    | varr xs =>
      match xs with
      | [] => rfl
      | [x] => simp [List.contains_cons]
      | x :: y :: t => rfl
    | vnull => rfl
    | vbool b => rfl
    | vint n => rfl
    | vstr s => rfl
    | vdoc kvs => rfl
    | oid hx => rfl
    | vbin s dd => rfl
    | vdate y m dd => rfl
    | vtime a b c => rfl
    | vdatetime a b c dd e f => rfl

theorem beq_oid_comm (a b : MVal) (ha : mvalIsOid a = true)
    (hb : mvalIsOid b = true) : (a == b) = (b == a) := by
  cases a <;> simp [mvalIsOid] at ha
  cases b <;> simp [mvalIsOid] at hb
  rename_i x y
  by_cases hxy : x = y
  · rw [hxy]
  · have h1 : (MVal.oid x == MVal.oid y) = (x == y) := rfl
    have h2 : (MVal.oid y == MVal.oid x) = (y == x) := rfl
    rw [h1, h2, beq_eq_false_iff_ne.mpr hxy, beq_eq_false_iff_ne.mpr (Ne.symm hxy)]

theorem filter_ne_of_not_contains (xs : List MVal) (delv : MVal)
    (hxs : xs.all mvalIsOid = true) (hv : mvalIsOid delv = true)
    (h : xs.contains delv = false) :
    xs.filter (fun x => !(x == delv)) = xs := by
  induction xs with
  | nil => rfl
  | cons x t ih =>
    simp only [List.contains_cons, Bool.or_eq_false_iff] at h
    simp only [List.all_cons, Bool.and_eq_true] at hxs
    have hx : (x == delv) = false := by
      rw [beq_oid_comm x delv hxs.1 hv]
      exact h.1
    simp [List.filter_cons, hx, ih hxs.2 h.2]

theorem pull_match_eq (d : Doc) (delv : MVal)
    (h : listRefOk "reflist" d = true) (hv : mvalIsOid delv = true) :
    docMatches d (.vdoc [("reflist", delv)]) =
      (match Doc.lookup d "reflist" with
        | some (.varr xs) => xs.contains delv
        | _ => false) := by
  cases delv <;> simp [mvalIsOid] at hv
  rename_i hx
  simp only [docMatches, condsMatch, condMatch]
  unfold listRefOk at h
  cases hl : Doc.lookup d "reflist" with
  | none =>
    simp [litMatch]
    rfl
  | some w =>
    rw [hl] at h
    cases w with
    | varr xs =>
      simp only [litMatch]
      rw [beq_varr_oid_false xs (.oid hx) rfl]
      simp
    | vnull => simp at h
    | vbool b => simp at h
    | vint n => simp at h
    | vstr s => simp at h
    | vdoc kvs => simp at h
    | oid hy => simp at h
    | vbin s dd => simp at h
    | vdate y m dd => simp at h
    | vtime a b c => simp at h
    | vdatetime a b c dd e f => simp at h

theorem pullOne_eq (d : Doc) (delv : MVal)
    (h : listRefOk "reflist" d = true) (hv : mvalIsOid delv = true) :
    (if docMatches d (.vdoc [("reflist", delv)])
      then applyUpdate (.vdoc [("$pull", .vdoc [("reflist", delv)])]) d
      else d) = pullOne "reflist" delv d := by
  rw [pull_match_eq d delv h hv]
  unfold pullOne
  unfold listRefOk at h
  cases hl : Doc.lookup d "reflist" with
  | none => simp
  | some w =>
    rw [hl] at h
    cases w with
    | varr xs =>
      by_cases hc : xs.contains delv = true
      · simp [hc, applyUpdate, hl]
      · simp only [Bool.not_eq_true] at hc
        simp only [hc, Bool.false_eq_true, if_false]
        rw [filter_ne_of_not_contains xs delv (by simpa using h) hv hc]
        exact (set_lookup_self d "reflist" (.varr xs) hl).symm
    | vnull => simp at h
    | vbool b => simp at h
    | vint n => simp at h
    | vstr s => simp at h
    | vdoc kvs => simp at h
    | oid hy => simp at h
    | vbin s dd => simp at h
    | vdate y m dd => simp at h
    | vtime a b c => simp at h
    | vdatetime a b c dd e f => simp at h

theorem listRefOk_pullOne (d : Doc) (delv : MVal)
    (h : listRefOk "reflist" d = true) :
    listRefOk "reflist" (pullOne "reflist" delv d) = true := by
  unfold pullOne
  cases hl : Doc.lookup d "reflist" with
  | none => exact h
  | some w =>
    cases w with
    | varr xs =>
      unfold listRefOk at h ⊢
      rw [hl] at h
      rw [lookup_set_eq]
      exact all_filter _ _ xs h
    | vnull => exact h
    | vbool b => exact h
    | vint n => exact h
    | vstr s => exact h
    | vdoc kvs => exact h
    | oid hy => exact h
    | vbin s dd => exact h
    | vdate y m dd => exact h
    | vtime a b c => exact h
    | vdatetime a b c dd e f => exact h

theorem pull_step (delv : MVal) (rest : List MVal) (d : Doc) :
    pullListRef "reflist" rest (pullOne "reflist" delv d) =
      pullListRef "reflist" (delv :: rest) d := by
  cases hl : Doc.lookup d "reflist" with
  | none =>
    have h1 : pullOne "reflist" delv d = d := by unfold pullOne; rw [hl]
    rw [h1]
    unfold pullListRef
    rw [hl]
  | some w =>
    cases w with
    | varr xs =>
      have h1 : pullOne "reflist" delv d =
          Doc.set d "reflist" (.varr (xs.filter (fun x => !(x == delv)))) := by
        unfold pullOne; rw [hl]
      rw [h1]
      unfold pullListRef
      rw [lookup_set_eq, hl]
      dsimp only
      rw [set_set]
      congr 2
      rw [List.filter_filter]
      apply List.filter_congr
      intro x hx
      simp only [List.contains_cons, Bool.not_or, Bool.and_comm]
    | vnull =>
      have h1 : pullOne "reflist" delv d = d := by unfold pullOne; rw [hl]
      rw [h1]; unfold pullListRef; rw [hl]
    | vbool b =>
      have h1 : pullOne "reflist" delv d = d := by unfold pullOne; rw [hl]
      rw [h1]; unfold pullListRef; rw [hl]
    | vint n =>
      have h1 : pullOne "reflist" delv d = d := by unfold pullOne; rw [hl]
      rw [h1]; unfold pullListRef; rw [hl]
    | vstr s =>
      have h1 : pullOne "reflist" delv d = d := by unfold pullOne; rw [hl]
      rw [h1]; unfold pullListRef; rw [hl]
    | vdoc kvs =>
      have h1 : pullOne "reflist" delv d = d := by unfold pullOne; rw [hl]
      rw [h1]; unfold pullListRef; rw [hl]
    | oid hy =>
      have h1 : pullOne "reflist" delv d = d := by unfold pullOne; rw [hl]
      rw [h1]; unfold pullListRef; rw [hl]
    | vbin s dd =>
      have h1 : pullOne "reflist" delv d = d := by unfold pullOne; rw [hl]
      rw [h1]; unfold pullListRef; rw [hl]
    | vdate y m dd =>
      have h1 : pullOne "reflist" delv d = d := by unfold pullOne; rw [hl]
      rw [h1]; unfold pullListRef; rw [hl]
    | vtime a b c =>
      have h1 : pullOne "reflist" delv d = d := by unfold pullOne; rw [hl]
      rw [h1]; unfold pullListRef; rw [hl]
    | vdatetime a b c dd e f =>
      have h1 : pullOne "reflist" delv d = d := by unfold pullOne; rw [hl]
      rw [h1]; unfold pullListRef; rw [hl]

theorem pullListRef_nil (d : Doc) :
    pullListRef "reflist" [] d = d := by
  unfold pullListRef
  cases hl : Doc.lookup d "reflist" with
  | none => rfl
  | some w =>
    cases w with
    | varr xs =>
      dsimp only
      have hfil : xs.filter (fun x => !(([] : List MVal).contains x)) = xs := by
        apply List.filter_eq_self.mpr
        intro x hx
        simp
      rw [hfil]
      exact set_lookup_self d "reflist" (.varr xs) hl
    | vnull => rfl
    | vbool b => rfl
    | vint n => rfl
    | vstr s => rfl
    | vdoc kvs => rfl
    | oid hy => rfl
    | vbin s dd => rfl
    | vdate y m dd => rfl
    | vtime a b c => rfl
    | vdatetime a b c dd e f => rfl

theorem store3_get_ta (a b c : Collection) :
    Store.get ⟨[("ta", a), ("tb", b), ("tc", c)]⟩ "ta" = a := rfl

theorem store3_get_tb (a b c : Collection) :
    Store.get ⟨[("ta", a), ("tb", b), ("tc", c)]⟩ "tb" = b := rfl

theorem store3_get_tc (a b c : Collection) :
    Store.get ⟨[("ta", a), ("tb", b), ("tc", c)]⟩ "tc" = c := rfl

theorem store3_set_ta (a b c x : Collection) :
    Store.set ⟨[("ta", a), ("tb", b), ("tc", c)]⟩ "ta" x =
      ⟨[("ta", x), ("tb", b), ("tc", c)]⟩ := rfl

theorem store3_set_tb (a b c x : Collection) :
    Store.set ⟨[("ta", a), ("tb", b), ("tc", c)]⟩ "tb" x =
      ⟨[("ta", a), ("tb", x), ("tc", c)]⟩ := rfl

theorem store3_set_tc (a b c x : Collection) :
    Store.set ⟨[("ta", a), ("tb", b), ("tc", c)]⟩ "tc" x =
      ⟨[("ta", a), ("tb", b), ("tc", x)]⟩ := rfl

theorem filter_sole_nil (c : Collection) :
    c.filter (fun d => !(soleListRef "reflist" [] d)) = c := by
  have h1 : ∀ d ∈ c, (!(soleListRef "reflist" ([] : List MVal) d)) =
      (fun _ => true) d := fun d _ => by simp [soleListRef_nil]
  rw [List.filter_congr h1, List.filter_true]

theorem map_pull_nil (c : Collection) :
    c.map (pullListRef "reflist" []) = c := by
  have h1 : ∀ d ∈ c, pullListRef "reflist" [] d = id d :=
    fun d _ => pullListRef_nil d
  rw [List.map_congr_left h1, List.map_id]

theorem sole_fold : ∀ (deleted : List MVal) (a b c : Collection)
    (calls : List DbCall),
    deleted.all mvalIsOid = true →
    c.all (listRefOk "reflist") = true →
    deleted.foldl (fun (st : Store × List DbCall) delv =>
        (st.1.set "tc" (deleteManyDocs (st.1.get "tc")
            (MVal.vdoc [("reflist", .varr [delv])])).1,
         st.2 ++ [DbCall.deleteMany "tc" (MVal.vdoc [("reflist", .varr [delv])])]))
      (⟨⟨[("ta", a), ("tb", b), ("tc", c)]⟩, calls⟩ : Store × List DbCall) =
    (⟨[("ta", a), ("tb", b),
       ("tc", c.filter (fun d => !(soleListRef "reflist" deleted d)))]⟩,
     calls ++ deleted.map (fun delv =>
       DbCall.deleteMany "tc" (MVal.vdoc [("reflist", .varr [delv])]))) := by
  intro deleted
  induction deleted with
  | nil =>
    intro a b c calls _ hC
    simp [filter_sole_nil c]
  | cons delv rest ih =>
    intro a b c calls hdel hC
    simp only [List.all_cons, Bool.and_eq_true] at hdel
    rw [List.foldl_cons, store3_get_tc, store3_set_tc]
    have hinit : (deleteManyDocs c (MVal.vdoc [("reflist", MVal.varr [delv])])).1 =
        c.filter (fun d => !docMatches d (MVal.vdoc [("reflist", MVal.varr [delv])])) := rfl
    rw [hinit]
    dsimp only
    rw [ih a b _ _ hdel.2 (all_filter _ _ c hC)]
    have hfc : (c.filter (fun d =>
          !docMatches d (.vdoc [("reflist", .varr [delv])]))).filter
        (fun d => !(soleListRef "reflist" rest d)) =
        c.filter (fun d => !(soleListRef "reflist" (delv :: rest) d)) := by
      rw [List.filter_filter]
      apply List.filter_congr
      intro d hd
      rw [sole_match_eq d delv (List.all_eq_true.mp hC d hd) hdel.1,
        sole_cons "reflist" delv rest d]
      simp [Bool.not_or, Bool.and_comm]
    rw [hfc]
    simp

theorem pull_fold : ∀ (deleted : List MVal) (a b c : Collection)
    (calls : List DbCall),
    deleted.all mvalIsOid = true →
    c.all (listRefOk "reflist") = true →
    deleted.foldl (fun (st : Store × List DbCall) delv =>
        (st.1.set "tc" (updateManyDocs (st.1.get "tc")
            (MVal.vdoc [("reflist", delv)])
            (MVal.vdoc [("$pull", MVal.vdoc [("reflist", delv)])])).1,
         st.2 ++ [DbCall.updateMany "tc" (MVal.vdoc [("reflist", delv)])
            (MVal.vdoc [("$pull", MVal.vdoc [("reflist", delv)])])]))
      (⟨⟨[("ta", a), ("tb", b), ("tc", c)]⟩, calls⟩ : Store × List DbCall) =
    (⟨[("ta", a), ("tb", b),
       ("tc", c.map (pullListRef "reflist" deleted))]⟩,
     calls ++ deleted.map (fun delv =>
       DbCall.updateMany "tc" (MVal.vdoc [("reflist", delv)])
         (MVal.vdoc [("$pull", MVal.vdoc [("reflist", delv)])]))) := by
  intro deleted
  induction deleted with
  | nil =>
    intro a b c calls _ hC
    simp [map_pull_nil c]
  | cons delv rest ih =>
    intro a b c calls hdel hC
    simp only [List.all_cons, Bool.and_eq_true] at hdel
    rw [List.foldl_cons, store3_get_tc, store3_set_tc]
    have hmap : (updateManyDocs c (MVal.vdoc [("reflist", delv)])
        (MVal.vdoc [("$pull", MVal.vdoc [("reflist", delv)])])).1 =
        c.map (pullOne "reflist" delv) := by
      rw [updateManyDocs]
      apply List.map_congr_left
      intro d hd
      exact pullOne_eq d delv (List.all_eq_true.mp hC d hd) hdel.1
    rw [hmap]
    dsimp only
    have hC2 : (c.map (pullOne "reflist" delv)).all (listRefOk "reflist") = true := by
      rw [List.all_map]
      apply List.all_eq_true.mpr
      intro d hd
      exact listRefOk_pullOne d delv (List.all_eq_true.mp hC d hd)
    rw [ih a b _ _ hdel.2 hC2]
    have hmm : (c.map (pullOne "reflist" delv)).map (pullListRef "reflist" rest) =
        c.map (pullListRef "reflist" (delv :: rest)) := by
      rw [List.map_map]
      apply List.map_congr_left
      intro d hd
      exact pull_step delv rest d
    rw [hmm]
    simp

/-- C4: against the `dbCascade` schema (table `ta` referenced by `tb`
through the singular CASCADE reference `refa` and by `tc` through the
list CASCADE reference `reflist`), deleting from `ta` also deletes every
`tb` record whose `refa` holds a deleted identifier; the returned count
is the number of primary (`ta`) documents deleted only; a `tc` record is
deleted only when the deleted identifier was its sole `reflist` element,
and otherwise just that identifier is pulled from its list. -/
theorem delete_cascade_singular_and_list
    (serverGe26 defaultSafe : Bool) (fuel : Nat) (A B C : Collection)
    (q : MExp) (f : MVal)
    (hq : q.isQuery = true)
    (hgt : get_table q = .ok "ta")
    (hE : expandM false q none = .ok f)
    (hA : A.all docIdOid = true)
    (hB : B.all (fun d => docIdOid d && refOk "refa" d) = true)
    (hC : C.all (listRefOk "reflist") = true) :
    ∃ st calls,
      mdelete serverGe26 defaultSafe dbCascade (fuel + 2)
        ⟨[("ta", A), ("tb", B), ("tc", C)]⟩ "ta" q =
        .ok ((A.filter (fun d => docMatches d f)).length, st, calls) ∧
      st.get "ta" = A.filter (fun d => !docMatches d f) ∧
      st.get "tb" = B.filter (fun d =>
        !(((A.filter (fun d2 => docMatches d2 f)).map docId).contains
          (refVal "refa" d))) ∧
      st.get "tc" = (C.filter (fun d => !(soleListRef "reflist"
          ((A.filter (fun d2 => docMatches d2 f)).map docId) d))).map
        (pullListRef "reflist"
          ((A.filter (fun d2 => docMatches d2 f)).map docId)) := by
  obtain ⟨hBid, hBref⟩ := all_split _ _ B hB
  have hdelOids := map_docId_oids (A.filter (fun d => docMatches d f))
    (all_filter _ _ A hA)
  have hmapA := mapM_docId_ok (A.filter (fun d => docMatches d f))
    (all_filter _ _ A hA)
  have hmapA2 : List.mapM.loop (fun d => match Doc.lookup d "_id" with
      | some v => Except.ok v
      | none => Except.error "KeyError: _id")
      (A.filter (fun d => docMatches d f)) [] =
      .ok ((A.filter (fun d => docMatches d f)).map docId) := hmapA
  have hexp : expand_query q none = .ok ("ta", f) := by
    simp [expand_query, hgt, hE, except_bind_ok, except_pure]
  have hdbta : dbCascade.get "ta" =
      ⟨"ta", [("x", "string")],
        [⟨"tb", "refa", "reference ta", "CASCADE"⟩],
        [⟨"tc", "reflist", "list:reference ta", "CASCADE"⟩]⟩ := rfl
  have hdbtb : dbCascade.get "tb" =
      ⟨"tb", [("refa", "reference ta")], [], []⟩ := rfl
  have hdm1 : (deleteManyDocs A f).1 = A.filter (fun d => !docMatches d f) := rfl
  have hdm2 : (deleteManyDocs A f).2 =
      (A.filter (fun d => docMatches d f)).length := rfl
  by_cases hm : A.filter (fun d => docMatches d f) = []
  · refine ⟨⟨[("ta", A.filter (fun d => !docMatches d f)), ("tb", B),
      ("tc", C)]⟩, [DbCall.deleteMany "ta" f], ?_, ?_, ?_, ?_⟩
    · simp [mdelete, hq, hexp, hmapA, hmapA2, hdm1, hdm2, hm,
        store3_get_ta, store3_set_ta, findDocs, hdbta, List.mapM.loop,
        except_bind_ok, except_pure]
    · exact store3_get_ta _ _ _
    · rw [store3_get_tb, hm]
      simp
    · rw [store3_get_tc, hm]
      simp only [List.map_nil, filter_sole_nil C, map_pull_nil]
  · have ha1 : ((A.filter (fun d => docMatches d f)).length != 0) = true := by
      cases hfe : A.filter (fun d => docMatches d f) with
      | nil => exact absurd hfe hm
      | cons x t => simp
    have ha2 : (((A.filter (fun d => docMatches d f)).map docId).isEmpty) =
        false := by
      cases hfe : A.filter (fun d => docMatches d f) with
      | nil => exact absurd hfe hm
      | cons x t => simp [List.isEmpty]
    have hExpB := expand_belongs ((A.filter (fun d2 => docMatches d2 f)).map docId)
      hdelOids
    have hmapB := mapM_docId_ok (B.filter (fun d => docMatches d
        (.vdoc [("refa", .vdoc [("$in",
          .varr ((A.filter (fun d2 => docMatches d2 f)).map docId))])])))
      (all_filter _ _ B hBid)
    have hmapB2 : List.mapM.loop (fun d => match Doc.lookup d "_id" with
        | some v => Except.ok v
        | none => Except.error "KeyError: _id")
        (B.filter (fun d => docMatches d
          (.vdoc [("refa", .vdoc [("$in",
            .varr ((A.filter (fun d2 => docMatches d2 f)).map docId))])]))) [] =
        .ok ((B.filter (fun d => docMatches d
          (.vdoc [("refa", .vdoc [("$in",
            .varr ((A.filter (fun d2 => docMatches d2 f)).map docId))])]))).map
          docId) := hmapB
    have hdmB : (deleteManyDocs B (.vdoc [("refa", .vdoc [("$in",
        .varr ((A.filter (fun d2 => docMatches d2 f)).map docId))])])).1 =
        B.filter (fun d => !docMatches d (.vdoc [("refa", .vdoc [("$in",
          .varr ((A.filter (fun d2 => docMatches d2 f)).map docId))])])) := rfl
    have hBfix : B.filter (fun d => !docMatches d (.vdoc [("refa", .vdoc [("$in",
        .varr ((A.filter (fun d2 => docMatches d2 f)).map docId))])])) =
        B.filter (fun d =>
          !(((A.filter (fun d2 => docMatches d2 f)).map docId).contains
            (refVal "refa" d))) := by
      apply List.filter_congr
      intro d hd
      rw [docMatches_refa_in d _ (List.all_eq_true.mp hBref d hd)]
    have hqB : (MExp.node .opBELONGS none (.field "tb" "refa" "reference ta")
        (some (.lit (.varr
          ((A.filter (fun d2 => docMatches d2 f)).map docId))))).isQuery =
        true := rfl
    have hexpB : expand_query (.node .opBELONGS none
        (.field "tb" "refa" "reference ta")
        (some (.lit (.varr ((A.filter (fun d2 => docMatches d2 f)).map docId)))))
        none = .ok ("tb", .vdoc [("refa", .vdoc [("$in",
          .varr ((A.filter (fun d2 => docMatches d2 f)).map docId))])]) := by
      simp [expand_query, get_table, MExp.getTablename, hExpB,
        except_bind_ok, except_pure]
    have hsf := sole_fold ((A.filter (fun d2 => docMatches d2 f)).map docId)
      (A.filter (fun d => !docMatches d f)) B C [DbCall.deleteMany "ta" f]
      hdelOids hC
    have hpf := pull_fold ((A.filter (fun d2 => docMatches d2 f)).map docId)
      (A.filter (fun d => !docMatches d f)) B
      (C.filter (fun d => !(soleListRef "reflist"
        ((A.filter (fun d2 => docMatches d2 f)).map docId) d)))
      (DbCall.deleteMany "ta" f ::
        ((A.filter (fun d2 => docMatches d2 f)).map docId).map (fun delv =>
          DbCall.deleteMany "tc" (MVal.vdoc [("reflist", .varr [delv])])))
      hdelOids (all_filter _ _ C hC)
    refine ⟨⟨[("ta", A.filter (fun d => !docMatches d f)),
        ("tb", B.filter (fun d =>
          !(((A.filter (fun d2 => docMatches d2 f)).map docId).contains
            (refVal "refa" d)))),
        ("tc", (C.filter (fun d => !(soleListRef "reflist"
            ((A.filter (fun d2 => docMatches d2 f)).map docId) d))).map
          (pullListRef "reflist"
            ((A.filter (fun d2 => docMatches d2 f)).map docId)))]⟩,
      DbCall.deleteMany "ta" f ::
        (((A.filter (fun d2 => docMatches d2 f)).map docId).map (fun delv =>
          DbCall.deleteMany "tc" (MVal.vdoc [("reflist", .varr [delv])])) ++
        (((A.filter (fun d2 => docMatches d2 f)).map docId).map (fun delv =>
          DbCall.updateMany "tc" (MVal.vdoc [("reflist", delv)])
            (MVal.vdoc [("$pull", MVal.vdoc [("reflist", delv)])])) ++
        [DbCall.deleteMany "tb" (.vdoc [("refa", .vdoc [("$in",
          .varr ((A.filter (fun d2 => docMatches d2 f)).map docId))])])])),
      ?_, ?_, ?_, ?_⟩
    · simp [mdelete, hq, hexp, hmapA, hmapA2, hdm1, hdm2, ha1, ha2,
        hdbta, hdbtb, hqB, hexpB, hmapB, hmapB2, hdmB, hBfix, hsf, hpf,
        removeFromList, store3_get_ta, store3_get_tb, store3_get_tc,
        store3_set_ta, store3_set_tb, store3_set_tc, findDocs,
        List.foldlM_cons, List.foldlM_nil, List.foldl_cons, List.foldl_nil,
        except_bind_ok, except_pure, -List.map_map]
    · exact store3_get_ta _ _ _
    · exact store3_get_tb _ _ _
    · exact store3_get_tc _ _ _

theorem delete_cascade_singular_and_list_witness :
    ∃ st calls,
      mdelete false false dbCascade 2
        ⟨[("ta", [[("_id", MVal.oid "a1"), ("x", MVal.vstr "k")],
                  [("_id", MVal.oid "a2"), ("x", MVal.vstr "z")]]),
          ("tb", [[("_id", MVal.oid "b1"), ("refa", MVal.oid "a1")],
                  [("_id", MVal.oid "b2"), ("refa", MVal.oid "a2")]]),
          ("tc", [[("_id", MVal.oid "c1"), ("reflist", MVal.varr [.oid "a1"])],
                  [("_id", MVal.oid "c2"),
                   ("reflist", MVal.varr [.oid "a1", .oid "a2"])]])]⟩ "ta"
        (qEQ (.field "ta" "x" "string") (.vstr "k")) =
        .ok (1, st, calls) ∧
      st.get "ta" = [[("_id", MVal.oid "a2"), ("x", MVal.vstr "z")]] ∧
      st.get "tb" = [[("_id", MVal.oid "b2"), ("refa", MVal.oid "a2")]] ∧
      st.get "tc" = [[("_id", MVal.oid "c2"),
        ("reflist", MVal.varr [.oid "a2"])]] := by
  have h := delete_cascade_singular_and_list false false 0
    [[("_id", MVal.oid "a1"), ("x", MVal.vstr "k")],
     [("_id", MVal.oid "a2"), ("x", MVal.vstr "z")]]
    [[("_id", MVal.oid "b1"), ("refa", MVal.oid "a1")],
     [("_id", MVal.oid "b2"), ("refa", MVal.oid "a2")]]
    [[("_id", MVal.oid "c1"), ("reflist", MVal.varr [.oid "a1"])],
     [("_id", MVal.oid "c2"), ("reflist", MVal.varr [.oid "a1", .oid "a2"])]]
    (qEQ (.field "ta" "x" "string") (.vstr "k"))
    (.vdoc [("x", MVal.vstr "k")])
    (by decide) rfl
    (by simp +decide [qEQ, expandM, mongoOp1, mongoOp2, mongoNOT,
      buildLikeRegex, coerceSecondVal, represent, representDate,
      representTime, representListRef, mongoBlobMVal, object_id,
      objectIdOfHex, mvalToInt, mvalFalsy, mvalKey, MExp.pytype,
      MOp.isQuery, strContains, containsChars, startsWithChars,
      strStartsWith, except_bind_ok, except_pure])
    (by decide) (by decide) (by decide)
  have hfilter : List.filter (fun d => docMatches d (.vdoc [("x", MVal.vstr "k")]))
      [[("_id", MVal.oid "a1"), ("x", MVal.vstr "k")],
       [("_id", MVal.oid "a2"), ("x", MVal.vstr "z")]] =
      [[("_id", MVal.oid "a1"), ("x", MVal.vstr "k")]] := by
    simp +decide [docMatches, condsMatch, condMatch, allMatch, anyMatch,
      opsMatch, opMatch, litMatch, Doc.lookup, strStartsWith, startsWithChars]
  have hfilter2 : List.filter
      (fun d => !docMatches d (.vdoc [("x", MVal.vstr "k")]))
      [[("_id", MVal.oid "a1"), ("x", MVal.vstr "k")],
       [("_id", MVal.oid "a2"), ("x", MVal.vstr "z")]] =
      [[("_id", MVal.oid "a2"), ("x", MVal.vstr "z")]] := by
    simp +decide [docMatches, condsMatch, condMatch, allMatch, anyMatch,
      opsMatch, opMatch, litMatch, Doc.lookup, strStartsWith, startsWithChars]
  rw [hfilter, hfilter2] at h
  obtain ⟨st, calls, h1, h2, h3, h4⟩ := h
  refine ⟨st, calls, ?_, ?_, ?_, ?_⟩
  · simpa using h1
  · exact h2
  · rw [h3]
    simp +decide [docId, refVal, Doc.lookup, List.contains_cons,
      beq_unfold, MVal.beq, List.filter_cons]
  · rw [h4]
    simp +decide [pullListRef, soleListRef, docId, refVal, Doc.lookup,
      Doc.set, List.contains_cons, beq_unfold, MVal.beq, MVal.beqArr,
      List.filter_cons, List.map_cons]

end PydalMongo
